import Mathlib

/-!
Verification development for the oxidized-lox tree-walking interpreter
(crates `syntax` and `interpreter`).  The definitions below are a shallow
embedding of the Rust source:

* `TokenType`/`Token` follow `src/token.rs` (the `syntax` crate's
  `token.rs` is not present in the tree; the shapes are taken from the
  root crate's identical `Token` and from how `syntax::Token` is used).
* `Expression`/`Statement` follow `src/syntax/src/expression.rs` and
  `src/syntax/src/statement.rs`.  The `This` variant is modelled from the
  spec (section 3 lists `this` among expressions) because the syntax
  crate version that `interpreter.rs`/`resolver.rs` compile against is
  missing from the tree while both files match on `Expression::This`.
* Runtime values, environments and the interpreter follow
  `src/interpreter/src/interpreter.rs` and its submodules.  `Rc<RefCell<_>>`
  cells are modelled as indices into explicit heaps inside the
  interpreter state `St`; machine `f64` numbers are modelled as `Rat`
  (no claim in scope depends on rounding, infinities or NaN).

Host panics (`todo!()`, `unwrap` on an empty stack) are modelled by an
explicit `panicRes` outcome; unbounded recursion is handled by a fuel
parameter whose exhaustion is the separate outcome `timeout`.
-/

/-- Token kinds, mirroring `TokenType` in `token.rs`.  Keyword variants
carry a `K` suffix to avoid Lean keywords. -/
inductive TokenType where
  | leftParen | rightParen | leftBrace | rightBrace | comma | dot | minus | plus
  | semicolon | slash | star
  | bang | bangEqual | equal | equalEqual | greater | greaterEqual | less | lessEqual
  | identifier (s : String)
  | stringTok (s : String)
  | numberTok (q : Rat)
  | andK | classK | elseK | falseK | funK | forK | ifK | nilK | orK
  | printK | returnK | superK | thisK | trueK | varK | whileK
  | eof
deriving DecidableEq, Repr

/-- A scanner token: kind, exact lexeme text and 1-based line number,
mirroring `struct Token` in `token.rs`. -/
structure Token where
  token_type : TokenType
  lexeme : String
  line : Nat
deriving DecidableEq, Repr

/-- The expression AST of `src/syntax/src/expression.rs` (plus the `This`
variant, see the header comment).  `ordered_float::OrderedFloat<f64>`
literals are modelled as `Rat`. -/
inductive Expression where
  | binary (left : Expression) (operator : Token) (right : Expression)
  | grouping (e : Expression)
  | unary (t : Token) (e : Expression)
  | varE (name : String) (token : Token)
  | assignment (name : String) (value : Expression) (token : Token)
  | orE (left : Expression) (right : Expression)
  | andE (left : Expression) (right : Expression)
  | call (callee : Expression) (paren : Token) (args : List Expression)
  | getE (expression : Expression) (token : Token)
  | setE (name : Token) (object : Expression) (value : Expression)
  | trueE
  | falseE
  | number (q : Rat)
  | stringE (s : String)
  | nilE
  | thisE (keyword : Token)

mutual
/-- Structural equality of expressions, mirroring the derived
`PartialEq` on `Expression` (which compares every field, tokens
included).  This is the equality the interpreter's
`HashMap<Expression, usize>` uses for its keys. -/
def eqExpr : Expression → Expression → Bool
  | .binary l op r, .binary l' op' r' => eqExpr l l' && op == op' && eqExpr r r'
  | .grouping e, .grouping e' => eqExpr e e'
  | .unary t e, .unary t' e' => t == t' && eqExpr e e'
  | .varE n t, .varE n' t' => n == n' && t == t'
  | .assignment n v t, .assignment n' v' t' => n == n' && eqExpr v v' && t == t'
  | .orE l r, .orE l' r' => eqExpr l l' && eqExpr r r'
  | .andE l r, .andE l' r' => eqExpr l l' && eqExpr r r'
  | .call c p a, .call c' p' a' => eqExpr c c' && p == p' && eqExprList a a'
  | .getE e t, .getE e' t' => eqExpr e e' && t == t'
  | .setE n o v, .setE n' o' v' => n == n' && eqExpr o o' && eqExpr v v'
  | .trueE, .trueE => true
  | .falseE, .falseE => true
  | .number q, .number q' => q == q'
  | .stringE s, .stringE s' => s == s'
  | .nilE, .nilE => true
  | .thisE k, .thisE k' => k == k'
  | _, _ => false

/-- Pointwise `eqExpr` on argument lists (the derived `PartialEq` on
`Vec<Expression>`). -/
def eqExprList : List Expression → List Expression → Bool
  | [], [] => true
  | e :: r, e' :: r' => eqExpr e e' && eqExprList r r'
  | _, _ => false
end

/-- The statement AST of `src/syntax/src/statement.rs`.  The `Function`
struct (name, parameters, body) is flattened into the constructors that
carry it; `Block` is `List Statement`; a class's method list is a list of
(name, parameters, body) triples. -/
inductive Statement where
  | expression (e : Expression)
  | print (e : Expression)
  | variableDeclaration (name : String) (initializer : Option Expression)
  | functionDeclaration (name : String) (parameters : List Token) (body : List Statement)
  | block (b : List Statement)
  | ifS (condition : Expression) (thenBranch : Statement) (elseBranch : Option Statement)
  | whileS (condition : Expression) (body : Statement)
  | forS (initializer : Option Statement) (condition : Option Expression)
      (increment : Option Expression) (body : Statement)
  | classDeclaration (name : String) (methods : List (String × List Token × List Statement))
  | returnS (keyword : Token) (expression : Option Expression)
  | breakS (keyword : Token)
  | continueS (keyword : Token)

/-- Identifiers for the four host-provided native functions registered by
`load_native_functions`. -/
inductive NativeId where
  | clock | readLine | random | stringToNumber
deriving DecidableEq, Repr

mutual
/-- Runtime values (`LoxValue` in `value.rs`).  `Rc<String>` is a plain
`String`; `Rc<Callable>` is the callable by value (callables are
immutable); `Rc<Instance>` is an index into the instance heap because
instances have interior-mutable fields. -/
inductive LoxValue where
  | nil
  | boolean (b : Bool)
  | number (n : Rat)
  | stringV (s : String)
  | callable (c : Callable)
  | instanceV (i : Nat)

/-- `Callable` in `callable.rs`.  A native's function pointer is replaced
by its `NativeId`. -/
inductive Callable where
  | nativeC (func : NativeId) (arity : Nat)
  | loxFunction (f : LoxFunction)
  | constructor (cls : LoxClass) (arity : Nat)

/-- `LoxFunction` in `callable.rs`: the captured closure frame is the
index of that frame in the environment heap. -/
inductive LoxFunction where
  | mk (closure : Nat) (name : String) (is_initializer : Bool)
      (params : List Token) (block : List Statement)

/-- `Class` in `value.rs` (immutable after creation, hence by value);
named `LoxClass` here because Mathlib already declares `Class`. -/
inductive LoxClass where
  | mk (name : String) (methods : MethodMap) (super_class : OptLoxClass)

/-- The class's `HashMap<String, Rc<Callable>>` of methods, as an
association list. -/
inductive MethodMap where
  | nil
  | cons (name : String) (method : Callable) (rest : MethodMap)

/-- `Option<Rc<Class>>` (named `OptLoxClass` to avoid clashing with Mathlib) for the superclass link. -/
inductive OptLoxClass where
  | none
  | some (c : LoxClass)
end

def LoxFunction.closure : LoxFunction → Nat
  | .mk c _ _ _ _ => c

def LoxFunction.fname : LoxFunction → String
  | .mk _ n _ _ _ => n

def LoxFunction.is_initializer : LoxFunction → Bool
  | .mk _ _ i _ _ => i

def LoxFunction.params : LoxFunction → List Token
  | .mk _ _ _ p _ => p

def LoxFunction.body : LoxFunction → List Statement
  | .mk _ _ _ _ b => b

def LoxClass.cname : LoxClass → String
  | .mk n _ _ => n

/-- `Callable::arity`. -/
def Callable.arity : Callable → Nat
  | .nativeC _ a => a
  | .loxFunction f => f.params.length
  | .constructor _ a => a

/-- First match in the method map (`HashMap::get`). -/
def MethodMap.find : MethodMap → String → Option Callable
  | .nil, _ => Option.none
  | .cons n m rest, key => if n = key then Option.some m else rest.find key

/-- `HashMap::insert` semantics on the method map: replace in place, else
append. -/
def MethodMap.insertM : MethodMap → String → Callable → MethodMap
  | .nil, key, m => .cons key m .nil
  | .cons n m0 rest, key, m =>
      if n = key then .cons key m rest else .cons n m0 (rest.insertM key m)

/-- `Class::find_method`: own methods first, else recurse into the
superclass chain. -/
def LoxClass.find_method : LoxClass → String → Option Callable
  | .mk _ ms .none, key => ms.find key
  | .mk _ ms (.some sup), key =>
      match ms.find key with
      | .some m => .some m
      | .none => sup.find_method key

/-- `LoxValue::is_truthy` in `value.rs`: `Nil` and `Boolean(false)` are
falsy, `Number(0.0)` is falsy, everything else is truthy. -/
def LoxValue.is_truthy : LoxValue → Bool
  | .nil => false
  | .boolean b => b
  | .number q => if q = 0 then false else true
  | .stringV _ => true
  | .callable _ => true
  | .instanceV _ => true

/-- One environment frame (`struct Environment`): the name→value map as
an association list plus the optional enclosing frame reference. -/
structure Frame where
  values : List (String × LoxValue)
  enclosing : Option Nat

/-- One heap-allocated instance (`struct Instance`): its class and the
interior-mutable field map. -/
structure Inst where
  cls : LoxClass
  fields : List (String × LoxValue)

/-- The interpreter state: the two heaps standing for the `Rc` cells, the
`environment_stack` (head = top, i.e. the `Vec`'s last element), the
index of the global frame, the resolved-depth table `locals`, and the
values printed so far (stdout, display formatting elided). -/
structure St where
  env_heap : List Frame
  inst_heap : List Inst
  environment_stack : List Nat
  globals : Nat
  locals : List (Expression × Nat)
  output : List LoxValue

/-- `HashMap::get` on a name→value association list. -/
def values_get : List (String × LoxValue) → String → Option LoxValue
  | [], _ => Option.none
  | (k, v) :: rest, key => if k = key then Option.some v else values_get rest key

/-- `HashMap::insert` on a name→value association list: overwrite in
place, else append. -/
def values_insert : List (String × LoxValue) → String → LoxValue → List (String × LoxValue)
  | [], key, v => [(key, v)]
  | (k, v0) :: rest, key, v =>
      if k = key then (key, v) :: rest else (k, v0) :: values_insert rest key v

/-- The `Entry::Occupied` pattern of `assign_at`: overwrite only an
existing binding; `none` when the name is absent. -/
def values_assign : List (String × LoxValue) → String → LoxValue → Option (List (String × LoxValue))
  | [], _, _ => Option.none
  | (k, v0) :: rest, key, v =>
      if k = key then Option.some ((key, v) :: rest)
      else (values_assign rest key v).map (fun l => (k, v0) :: l)

/-- Dereference an environment handle (an `Rc` pointer modelled as a heap
index).  Indices produced by the interpreter are always in range. -/
def frameGet (st : St) (i : Nat) : Option Frame :=
  st.env_heap[i]?

/-- Write back through an environment handle. -/
def frameSet (st : St) (i : Nat) (f : Frame) : St :=
  { st with env_heap := st.env_heap.set i f }

/-- `Environment::define`: insert/overwrite unconditionally in the frame
`i` points to. -/
def env_define (st : St) (i : Nat) (name : String) (v : LoxValue) : St :=
  match frameGet st i with
  | Option.some f => frameSet st i { f with values := values_insert f.values name v }
  | Option.none => st

/-- The loop inside `Environment::ancestor`: starting from an optional
frame reference, step `distance` times to the enclosing frame; a missing
link stays `None` for the remaining iterations. -/
def ancestor_walk (st : St) : Option Nat → Nat → Option Nat
  | env, 0 => env
  | Option.none, _ + 1 => Option.none
  | Option.some j, d + 1 =>
      ancestor_walk st ((frameGet st j).bind Frame.enclosing) d

/-- `Environment::ancestor`: begin at the *enclosing* link of the frame
itself, then walk `distance` more links. -/
def Environment.ancestor (st : St) (self_ : Nat) (distance : Nat) : Option Nat :=
  ancestor_walk st ((frameGet st self_).bind Frame.enclosing) distance

/-- `Environment::get_at`: distance 0 reads the frame itself; otherwise
read the frame `ancestor` returns, falling back to the frame itself when
`ancestor` returns `None`. -/
def Environment.get_at (st : St) (self_ : Nat) (name : String) (distance : Nat) : Option LoxValue :=
  if distance = 0 then (frameGet st self_).bind (fun f => values_get f.values name)
  else
    match Environment.ancestor st self_ distance with
    | Option.some j => (frameGet st j).bind (fun f => values_get f.values name)
    | Option.none => (frameGet st self_).bind (fun f => values_get f.values name)

/-- `Environment::assign_at`: overwrite `name` in the frame `ancestor`
returns (the frame itself when `ancestor` returns `None`), but only if
the name already exists there; returns whether the write happened. -/
def Environment.assign_at (st : St) (self_ : Nat) (name : String) (v : LoxValue)
    (distance : Nat) : Bool × St :=
  let target :=
    match Environment.ancestor st self_ distance with
    | Option.some j => j
    | Option.none => self_
  match frameGet st target with
  | Option.some f =>
      match values_assign f.values name v with
      | Option.some l => (true, frameSet st target { f with values := l })
      | Option.none => (false, st)
  | Option.none => (false, st)

/-- The recursion of `Environment::get`, walking outward through the
chain; fueled because the chain length is not structural (frames built by
the interpreter always enclose earlier heap entries, so the heap size
bounds every chain). -/
def env_get_fuel (st : St) : Nat → Nat → String → Option LoxValue
  | 0, _, _ => Option.none
  | fuel + 1, i, name =>
      match frameGet st i with
      | Option.none => Option.none
      | Option.some f =>
          match values_get f.values name with
          | Option.some v => Option.some v
          | Option.none =>
              match f.enclosing with
              | Option.some j => env_get_fuel st fuel j name
              | Option.none => Option.none

/-- `Environment::get`: look up by walking outward through the chain. -/
def Environment.get (st : St) (i : Nat) (name : String) : Option LoxValue :=
  env_get_fuel st (st.env_heap.length + 1) i name

/-- Walk exactly `n` enclosing links from frame `i` (specification-side
notion of depth used to characterize `get_at`/`assign_at`). -/
def walk_links (st : St) (i : Nat) : Nat → Option Nat
  | 0 => Option.some i
  | d + 1 =>
      match (frameGet st i).bind Frame.enclosing with
      | Option.some j => walk_links st j d
      | Option.none => Option.none

/-- `ControlFlow` threaded out of every statement execution. -/
inductive ControlFlow where
  | normal
  | breakLoop
  | continueLoop
  | ret (v : LoxValue)

/-- `NativeError` (`native.rs` is absent from the tree; natives perform
I/O, so their failures are a single opaque cause here). -/
inductive NativeError where
  | unmodeled
deriving DecidableEq, Repr

/-- `InterpreterErrorType` in `error.rs`, together with the
`NotAProperty`/`InvalidInstance` variants that `interpreter.rs`
constructs. -/
inductive InterpreterErrorType where
  | wrongUnaryOperands (op : TokenType) (v : LoxValue)
  | wrongBinaryOperands (a : LoxValue) (op : TokenType) (b : LoxValue)
  | divisionByZero
  | undefinedVariable (name : String)
  | notACallable
  | wrongArity (original : Nat) (user : Nat)
  | nativeE (e : NativeError)
  | notInLoop
  | notAProperty (class_name : String) (field : String)
  | invalidInstance (s : String)

/-- Outcome of running a piece of interpreter code: a value with the
updated state, an `InterpreterError` (error type plus offending token)
with the updated state, a host panic, or fuel exhaustion. -/
inductive Res (α : Type) where
  | ok (a : α) (st : St)
  | err (e : InterpreterErrorType) (token : Token) (st : St)
  | panicRes (msg : String)
  | timeout

/-- State-threading computations over `St`. -/
def M (α : Type) : Type := St → Res α

def M.pure {α : Type} (a : α) : M α := fun st => .ok a st

def M.bind {α β : Type} (x : M α) (f : α → M β) : M β := fun st =>
  match x st with
  | .ok a st' => f a st'
  | .err e t st' => .err e t st'
  | .panicRes m => .panicRes m
  | .timeout => .timeout

/-- Raise an `InterpreterError` (the `interpreter_error!` macro). -/
def throwE {α : Type} (e : InterpreterErrorType) (token : Token) : M α :=
  fun st => .err e token st

/-- Model of a host panic (`todo!()` or a failed `unwrap`). -/
def M.panicWith {α : Type} (msg : String) : M α := fun _ => .panicRes msg

/-- Message of the panic produced by `todo!()`. -/
def todo_msg : String := "not yet implemented"

/-- Message of the panic produced by `env_stack.last().unwrap()` on an
empty stack. -/
def empty_stack_msg : String := "environment stack is empty"

def getSt : M St := fun st => .ok st st

/-- `self.environment_stack.borrow().last().unwrap().clone()`: the top of
the environment stack, panicking when the stack is empty. -/
def currentEnvironment : M Nat := fun st =>
  match st.environment_stack with
  | [] => .panicRes empty_stack_msg
  | e :: _ => .ok e st

/-- Push a frame reference onto the environment stack. -/
def pushEnv (st : St) (env : Nat) : St :=
  { st with environment_stack := env :: st.environment_stack }

/-- `Vec::pop` with the result discarded: drop the top of the stack, a
no-op on an empty stack. -/
def popEnv (st : St) : St :=
  { st with environment_stack := st.environment_stack.tail }

/-- Perform the pop of `execute_block` after a statement: the pop happens
on the success *and* on the error path (the `?` fires only afterwards). -/
def popAfter {α : Type} : Res α → Res α
  | .ok a st => .ok a (popEnv st)
  | .err e t st => .err e t (popEnv st)
  | .panicRes m => .panicRes m
  | .timeout => .timeout

/-- `Rc::new(RefCell::new(frame))`: allocate a frame on the heap and
return its handle. -/
def allocFrameM (f : Frame) : M Nat := fun st =>
  .ok st.env_heap.length { st with env_heap := st.env_heap ++ [f] }

/-- `define` through a handle. -/
def envDefineM (i : Nat) (name : String) (v : LoxValue) : M Unit := fun st =>
  .ok () (env_define st i name v)

/-- `self.globals.borrow_mut().define(..)`. -/
def defineGlobalM (name : String) (v : LoxValue) : M Unit := fun st =>
  .ok () (env_define st st.globals name v)

/-- `assign_at` through a handle. -/
def assignAtM (i : Nat) (name : String) (v : LoxValue) (distance : Nat) : M Bool := fun st =>
  match Environment.assign_at st i name v distance with
  | (b, st') => .ok b st'

/-- `println!("{result}")`: record the printed value. -/
def outputM (v : LoxValue) : M Unit := fun st =>
  .ok () { st with output := st.output ++ [v] }

/-- `Rc::new(Instance::new(class))`: allocate a fresh instance with an
empty field map. -/
def allocInstanceM (cls : LoxClass) : M Nat := fun st =>
  .ok st.inst_heap.length { st with inst_heap := st.inst_heap ++ [⟨cls, []⟩] }

/-- The three-way result of `Instance::get` (named `InstField` because
Mathlib already declares `Field`). -/
inductive InstField where
  | undefined
  | value (v : LoxValue)
  | methodF (m : Callable)

/-- `Instance::get`: own fields first, then the class's method chain. -/
def Instance.get (st : St) (i : Nat) (key : String) : InstField :=
  match st.inst_heap[i]? with
  | Option.none => .undefined
  | Option.some inst =>
      match values_get inst.fields key with
      | Option.some v => .value v
      | Option.none =>
          match inst.cls.find_method key with
          | Option.some m => .methodF m
          | Option.none => .undefined

def instanceGetM (i : Nat) (key : String) : M InstField := fun st =>
  .ok (Instance.get st i key) st

/-- `Instance::set`: always writes into the instance's own field map. -/
def instanceSetM (i : Nat) (key : String) (v : LoxValue) : M Unit := fun st =>
  match st.inst_heap[i]? with
  | Option.none => .ok () st
  | Option.some inst =>
      .ok () { st with
        inst_heap := st.inst_heap.set i { inst with fields := values_insert inst.fields key v } }

/-- `Instance::class_name` through a handle. -/
def classNameM (i : Nat) : M String := fun st =>
  match st.inst_heap[i]? with
  | Option.none => .ok "" st
  | Option.some inst => .ok inst.cls.cname st

/-- The `Debug` rendering of a callable. -/
def Callable.debugStr : Callable → String
  | .nativeC _ _ => "<native fun>"
  | .loxFunction f => "<fun " ++ f.fname ++ ">"
  | .constructor cls _ => "<constructor " ++ cls.cname ++ ">"

/-- The `Display` rendering of a value (number formatting abstracted to
`Rat`'s printer; no claim in scope depends on it). -/
def LoxValue.display (st : St) : LoxValue → String
  | .nil => "nil"
  | .boolean b => toString b
  | .number q => toString q
  | .stringV s => s
  | .callable c => c.debugStr
  | .instanceV i =>
      match st.inst_heap[i]? with
      | Option.some inst => "instanceof(" ++ inst.cls.cname ++ ")"
      | Option.none => "instanceof(?)"

/-- Lookup in the resolved-depth table (`HashMap<Expression, usize>`),
using the derived structural equality. -/
def locals_get : List (Expression × Nat) → Expression → Option Nat
  | [], _ => Option.none
  | (k, d) :: rest, e => if eqExpr k e then Option.some d else locals_get rest e

/-- `Interpreter::resolve`: `locals.insert(expression.clone(), depth)` —
`HashMap::insert` semantics on structural keys (replace in place, else
append). -/
def Interpreter.resolve (locals : List (Expression × Nat)) (expression : Expression)
    (depth : Nat) : List (Expression × Nat) :=
  match locals with
  | [] => [(expression, depth)]
  | (k, d) :: rest =>
      if eqExpr k expression then (expression, depth) :: rest
      else (k, d) :: Interpreter.resolve rest expression depth

/-- `Interpreter::lookup_variable`: use the resolved distance when this
expression has one (reading from the top of the environment stack), else
fall back to a by-name lookup through the global frame. -/
def lookup_variable (name : String) (expression : Expression) : M (Option LoxValue) :=
  M.bind getSt fun st =>
  match locals_get st.locals expression with
  | Option.some distance =>
      M.bind currentEnvironment fun last_env =>
      M.pure (Environment.get_at st last_env name distance)
  | Option.none => M.pure (Environment.get st st.globals name)

/-- Model of the absent `native.rs`.  Modelled from the spec: the four
natives (`clock`, `read_line`, `random`, `string_to_number`) perform I/O
or nondeterministic work, so their behaviour is abstracted as an opaque
native failure; the interpreter wraps any such failure into the `Native`
error variant. -/
def native_sem (_func : NativeId) (_args : List LoxValue) : Except NativeError LoxValue :=
  .error .unmodeled

/-- `Interpreter::evaluate_native`: arity check, then the host call, any
failure rewrapped as a `Native` interpreter error. -/
def evaluate_native (token : Token) (arity : Nat) (func : NativeId)
    (arguments : List LoxValue) : M LoxValue :=
  if arity ≠ arguments.length then
    throwE (.wrongArity arity arguments.length) token
  else
    match native_sem func arguments with
    | .ok r => M.pure r
    | .error e => throwE (.nativeE e) token

/-- `LoxFunction::bind`: a fresh frame enclosing the method's closure,
holding exactly `this ↦ instance`; note the source sets
`is_initializer: true` unconditionally on the bound function. -/
def LoxFunction.bind (f : LoxFunction) (instRef : Nat) : M LoxFunction :=
  M.bind (allocFrameM
    { values := values_insert [] "this" (.instanceV instRef),
      enclosing := Option.some f.closure }) fun idx =>
  M.pure (.mk idx f.fname true f.params f.body)

/-- `Interpreter::bind_method`: bind a `LoxFunction`, pass every other
callable through unchanged. -/
def bind_method (instRef : Nat) (method : Callable) : M Callable :=
  match method with
  | .loxFunction f => M.bind (f.bind instRef) fun f' => M.pure (.loxFunction f')
  | m => M.pure m

/-- Bind call arguments into the fresh function frame
(`function_env.define(params[i].lexeme(), arg)` in order). -/
def bind_params (f : Frame) : List Token → List LoxValue → Frame
  | p :: ps, a :: as_ =>
      bind_params { f with values := values_insert f.values p.lexeme a } ps as_
  | _, _ => f

/-- Build the class's method map from the declaration's method list
(`HashMap` collect: later duplicates overwrite earlier ones); every
method closes over the declaring environment and is flagged as an
initializer exactly when it is named `init`. -/
def build_methods (closure : Nat) : List (String × List Token × List Statement) → MethodMap
  | [] => .nil
  | (mname, mparams, mbody) :: rest =>
      (build_methods closure rest).insertM mname
        (.loxFunction (.mk closure mname (mname = "init") mparams mbody))

mutual
/-- `Interpreter::evaluate`.  Fuel bounds the recursion depth; every
recursive call runs at `fuel` where the current call matched `fuel + 1`. -/
def evaluate : Nat → Expression → M LoxValue
  | 0, _ => fun _ => .timeout
  | _ + 1, .trueE => M.pure (.boolean true)
  | _ + 1, .falseE => M.pure (.boolean false)
  | _ + 1, .number num => M.pure (.number num)
  | _ + 1, .stringE s => M.pure (.stringV s)
  | _ + 1, .nilE => M.pure .nil
  | fuel + 1, .grouping e => evaluate fuel e
  | fuel + 1, .unary token e => evaluate_unary fuel token e
  | fuel + 1, .binary left operator right => evaluate_binary fuel left operator right
  | _ + 1, .varE name token =>
      M.bind (lookup_variable token.lexeme (.varE name token)) fun v? =>
      match v? with
      | Option.some v => M.pure v
      | Option.none => throwE (.undefinedVariable token.lexeme) token
  | _ + 1, .thisE keyword =>
      M.bind (lookup_variable keyword.lexeme (.thisE keyword)) fun v? =>
      match v? with
      | Option.some v => M.pure v
      | Option.none => throwE (.undefinedVariable keyword.lexeme) keyword
  | fuel + 1, .assignment name value token =>
      M.bind getSt fun st =>
      match locals_get st.locals value with
      | Option.none => M.panicWith todo_msg
      | Option.some distance =>
          M.bind currentEnvironment fun last_env =>
          M.bind (evaluate fuel value) fun v =>
          M.bind (assignAtM last_env name v distance) fun wrote =>
          if wrote then M.pure v else throwE (.undefinedVariable name) token
  | fuel + 1, .orE left right =>
      M.bind (evaluate fuel left) fun l =>
      if l.is_truthy then M.pure l else evaluate fuel right
  | fuel + 1, .andE left right =>
      M.bind (evaluate fuel left) fun l =>
      if !l.is_truthy then M.pure l else evaluate fuel right
  | fuel + 1, .call callee paren args =>
      M.bind (evaluate fuel callee) fun cv =>
      match cv with
      | .callable function =>
          M.bind (evaluate_arguments fuel args) fun arguments =>
          interpret_call fuel function arguments paren
      | _ => throwE .notACallable paren
  | fuel + 1, .getE expression token =>
      M.bind (evaluate fuel expression) fun ov =>
      match ov with
      | .instanceV i =>
          M.bind (instanceGetM i token.lexeme) fun fld =>
          match fld with
          | .value v => M.pure v
          | .methodF m =>
              M.bind (bind_method i m) fun bound => M.pure (.callable bound)
          | .undefined =>
              M.bind (classNameM i) fun cn =>
              throwE (.notAProperty cn token.lexeme) token
      | _ => throwE (.invalidInstance token.lexeme) token
  | fuel + 1, .setE name object value =>
      M.bind (evaluate fuel object) fun ov =>
      match ov with
      | .instanceV i =>
          M.bind (evaluate fuel value) fun v =>
          M.bind (instanceSetM i name.lexeme v) fun _ => M.pure v
      | _ => throwE (.invalidInstance "object") name

/-- `Interpreter::evaluate_unary`: evaluate the operand, then match on
(operator kind, value); note the dedicated falsy arm for `Number(0.0)`. -/
def evaluate_unary : Nat → Token → Expression → M LoxValue
  | 0, _, _ => fun _ => .timeout
  | fuel + 1, token, expression =>
      M.bind (evaluate fuel expression) fun v =>
      match token.token_type, v with
      | .minus, .number num => M.pure (.number (-num))
      | .bang, .boolean b => M.pure (.boolean (!b))
      | .bang, .nil => M.pure (.boolean true)
      | .bang, .number q =>
          if q = 0 then M.pure (.boolean true) else M.pure (.boolean false)
      | op, v' => throwE (.wrongUnaryOperands op v') token

/-- `Interpreter::evaluate_binary`: evaluate both operands (left first),
then match on (left, operator kind, right). -/
def evaluate_binary : Nat → Expression → Token → Expression → M LoxValue
  | 0, _, _, _ => fun _ => .timeout
  | fuel + 1, first_operand, operator, second_operand =>
      M.bind (evaluate fuel first_operand) fun a =>
      M.bind (evaluate fuel second_operand) fun b =>
      match a, operator.token_type, b with
      | .number x, .plus, .number y => M.pure (.number (x + y))
      | .number x, .minus, .number y => M.pure (.number (x - y))
      | .number x, .star, .number y => M.pure (.number (x * y))
      | .number x, .slash, .number y =>
          if y = 0 then throwE .divisionByZero operator
          else M.pure (.number (x / y))
      | .number x, .equalEqual, .number y => M.pure (.boolean (x = y))
      | .number x, .greaterEqual, .number y => M.pure (.boolean (x ≥ y))
      | .number x, .greater, .number y => M.pure (.boolean (x > y))
      | .number x, .lessEqual, .number y => M.pure (.boolean (x ≤ y))
      | .number x, .less, .number y => M.pure (.boolean (x < y))
      | .stringV s1, .plus, .stringV s2 => M.pure (.stringV (s1 ++ s2))
      | .stringV s1, .plus, any =>
          M.bind getSt fun st => M.pure (.stringV (s1 ++ any.display st))
      | t1, op, t2 => throwE (.wrongBinaryOperands t1 op t2) operator

/-- Left-to-right evaluation of call arguments. -/
def evaluate_arguments : Nat → List Expression → M (List LoxValue)
  | 0, _ => fun _ => .timeout
  | _ + 1, [] => M.pure []
  | fuel + 1, arg :: rest =>
      M.bind (evaluate fuel arg) fun v =>
      M.bind (evaluate_arguments fuel rest) fun vs =>
      M.pure (v :: vs)

/-- `Interpreter::interpret_call`: dispatch on the callable variant.  The
`Constructor` arm checks the stored arity (reporting `original: 0`, as
the source does), creates a fresh instance, and when an `init` method
exists binds and invokes it, discarding its result; the instance is
always the call's value. -/
def interpret_call : Nat → Callable → List LoxValue → Token → M LoxValue
  | 0, _, _, _ => fun _ => .timeout
  | _ + 1, .nativeC func arity, arguments, paren =>
      evaluate_native paren arity func arguments
  | fuel + 1, .loxFunction function, arguments, paren =>
      evaluate_lox_function fuel paren arguments function
  | fuel + 1, .constructor cls arity, arguments, paren =>
      if arity ≠ arguments.length then
        throwE (.wrongArity 0 arguments.length) paren
      else
        M.bind (allocInstanceM cls) fun instRef =>
        match cls.find_method "init" with
        | Option.some initializer =>
            M.bind (bind_method instRef initializer) fun bound =>
            M.bind (interpret_call fuel bound arguments paren) fun _ =>
            M.pure (.instanceV instRef)
        | Option.none => M.pure (.instanceV instRef)

/-- `Interpreter::evaluate_lox_function`: arity check, bind parameters in
a fresh frame enclosing the closure, run the body as a block, then unwrap
the `ControlFlow` — except that an initializer's call re-reads `"init"`
at distance 0 from the closure (the source reads `"init"`, not `"this"`)
and yields `Nil` when that name is absent. -/
def evaluate_lox_function : Nat → Token → List LoxValue → LoxFunction → M LoxValue
  | 0, _, _, _ => fun _ => .timeout
  | fuel + 1, token, arguments, function =>
      if function.params.length ≠ arguments.length then
        throwE (.wrongArity function.params.length arguments.length) token
      else
        M.bind (allocFrameM
          (bind_params { values := [], enclosing := Option.some function.closure }
            function.params arguments)) fun function_env =>
        M.bind (execute_block fuel function.body function_env false) fun cf =>
        if function.is_initializer then
          M.bind getSt fun st =>
          M.pure ((Environment.get_at st function.closure "init" 0).getD .nil)
        else
          match cf with
          | .normal => M.pure .nil
          | .breakLoop => M.pure .nil
          | .continueLoop => M.pure .nil
          | .ret v => M.pure v

/-- `Interpreter::execute_statement`. -/
def execute_statement : Nat → Statement → Bool → M ControlFlow
  | 0, _, _ => fun _ => .timeout
  | fuel + 1, .expression e, _ =>
      M.bind (evaluate fuel e) fun _ => M.pure .normal
  | fuel + 1, .print e, _ =>
      M.bind (evaluate fuel e) fun result =>
      M.bind (outputM result) fun _ => M.pure .normal
  | _ + 1, .variableDeclaration name Option.none, _ =>
      M.bind currentEnvironment fun env =>
      M.bind (envDefineM env name .nil) fun _ => M.pure .normal
  | fuel + 1, .variableDeclaration name (Option.some initializer), _ =>
      M.bind (evaluate fuel initializer) fun initial =>
      M.bind currentEnvironment fun env =>
      M.bind (envDefineM env name initial) fun _ => M.pure .normal
  | fuel + 1, .block statements, inside_loop =>
      M.bind currentEnvironment fun current_env =>
      M.bind (allocFrameM { values := [], enclosing := Option.some current_env }) fun encl =>
      execute_block fuel statements encl inside_loop
  | fuel + 1, .ifS condition then_branch Option.none, inside_loop =>
      M.bind (evaluate fuel condition) fun v =>
      if v.is_truthy then execute_statement fuel then_branch inside_loop
      else M.pure .normal
  | fuel + 1, .ifS condition then_branch (Option.some else_branch), inside_loop =>
      M.bind (evaluate fuel condition) fun v =>
      if v.is_truthy then execute_statement fuel then_branch inside_loop
      else execute_statement fuel else_branch inside_loop
  | fuel + 1, .whileS condition body, inside_loop =>
      M.bind (evaluate fuel condition) fun v =>
      if v.is_truthy then
        M.bind (execute_statement fuel body true) fun cf =>
        match cf with
        | .breakLoop => M.pure .normal
        | .ret rv => M.pure (.ret rv)
        | .continueLoop => execute_statement fuel (.whileS condition body) inside_loop
        | .normal => execute_statement fuel (.whileS condition body) inside_loop
      else M.pure .normal
  | fuel + 1, .forS Option.none condition increment body, _ =>
      for_loop fuel condition increment body
  | fuel + 1, .forS (Option.some initializer) condition increment body, _ =>
      M.bind (execute_statement fuel initializer false) fun _ =>
      for_loop fuel condition increment body
  | _ + 1, .classDeclaration name methods, _ =>
      M.bind currentEnvironment fun environment =>
      M.bind (envDefineM environment name .nil) fun _ =>
      (fun cls =>
        M.bind (assignAtM environment name
          (.callable (.constructor cls
            (match cls.find_method "init" with
             | Option.some m => m.arity
             | Option.none => 0))) 0) fun _ =>
        M.pure ControlFlow.normal)
      (LoxClass.mk name (build_methods environment methods) .none)
  | _ + 1, .functionDeclaration name parameters body, _ =>
      M.bind currentEnvironment fun current_env =>
      M.bind (defineGlobalM name
        (.callable (.loxFunction (.mk current_env name false parameters body)))) fun _ =>
      M.pure .normal
  | _ + 1, .returnS _ Option.none, _ => M.pure (.ret .nil)
  | fuel + 1, .returnS _ (Option.some expression), _ =>
      M.bind (evaluate fuel expression) fun v => M.pure (.ret v)
  | _ + 1, .breakS keyword, inside_loop =>
      if inside_loop then M.pure .breakLoop else throwE .notInLoop keyword
  | _ + 1, .continueS keyword, inside_loop =>
      if inside_loop then M.pure .continueLoop else throwE .notInLoop keyword

/-- `Interpreter::execute_block`: for each statement push the block's
frame, execute, pop (also on the error path), then dispatch on the
resulting `ControlFlow`. -/
def execute_block : Nat → List Statement → Nat → Bool → M ControlFlow
  | 0, _, _, _ => fun _ => .timeout
  | _ + 1, [], _, _ => M.pure .normal
  | fuel + 1, statement :: rest, env, inside_loop =>
      M.bind (fun st => popAfter (execute_statement fuel statement inside_loop (pushEnv st env)))
        fun cf =>
      match cf with
      | .normal => execute_block fuel rest env inside_loop
      | .breakLoop => M.pure .breakLoop
      | .continueLoop => M.pure .continueLoop
      | .ret v => M.pure (.ret v)

/-- The `loop { .. }` of the `Statement::For` arm: test the condition (a
missing condition is truthy), then run one iteration. -/
def for_loop : Nat → Option Expression → Option Expression → Statement → M ControlFlow
  | 0, _, _, _ => fun _ => .timeout
  | fuel + 1, Option.none, increment, body =>
      for_body fuel Option.none increment body
  | fuel + 1, Option.some condition, increment, body =>
      M.bind (evaluate fuel condition) fun v =>
      if !v.is_truthy then M.pure .normal
      else for_body fuel (Option.some condition) increment body

/-- One `for` iteration after the condition test: run the body with
`inside_loop = true`; `BreakLoop` ends the loop with `Normal`, `Return`
propagates, and both `Normal` and `ContinueLoop` run the increment
expression before re-testing the condition. -/
def for_body : Nat → Option Expression → Option Expression → Statement → M ControlFlow
  | 0, _, _, _ => fun _ => .timeout
  | fuel + 1, condition, increment, body =>
      M.bind (execute_statement fuel body true) fun cf =>
      match cf with
      | .breakLoop => M.pure .normal
      | .ret v => M.pure (.ret v)
      | .normal =>
          M.bind (run_increment fuel increment) fun _ =>
          for_loop fuel condition increment body
      | .continueLoop =>
          M.bind (run_increment fuel increment) fun _ =>
          for_loop fuel condition increment body

/-- `if let Some(increment) = increment { self.evaluate(increment)?; }`. -/
def run_increment : Nat → Option Expression → M Unit
  | 0, _ => fun _ => .timeout
  | _ + 1, Option.none => M.pure ()
  | fuel + 1, Option.some increment =>
      M.bind (evaluate fuel increment) fun _ => M.pure ()
end

/-- `Interpreter::interpret`: execute the top-level statements in order
with `inside_loop = false`, discarding their `ControlFlow` and stopping
at the first error. -/
def interpret (fuel : Nat) : List Statement → M Unit
  | [] => M.pure ()
  | statement :: rest =>
      M.bind (execute_statement fuel statement false) fun _ => interpret fuel rest

/-- The global frame right after `Interpreter::new` ran
`load_native_functions`. -/
def initial_globals : Frame :=
  { values :=
      values_insert (values_insert (values_insert (values_insert []
        "clock" (.callable (.nativeC .clock 0)))
        "read_line" (.callable (.nativeC .readLine 0)))
        "random" (.callable (.nativeC .random 2)))
        "string_to_number" (.callable (.nativeC .stringToNumber 1)),
    enclosing := Option.none }

/-- `Interpreter::new`: the environment stack holds exactly the global
frame, the resolved-depth table is empty. -/
def Interpreter.new : St :=
  { env_heap := [initial_globals], inst_heap := [], environment_stack := [0],
    globals := 0, locals := [], output := [] }

/-- The interpreter state after the Resolver wrote a depth table into
`locals` (the Resolver's write channel `Interpreter::resolve`). -/
def St.with_locals (st : St) (l : List (Expression × Nat)) : St :=
  { st with locals := l }

/-- `ResolverError` in `resolver.rs`. -/
inductive ResolverError where
  | notInitialized (name : String)
  | variableAlreadyExists (name : String)
  | returnNotInFunction
  | invalidThis (line : Nat)
deriving DecidableEq, Repr

/-- The resolver's `FunctionType` context. -/
inductive FunctionType where
  | noneF | function | method
deriving DecidableEq, Repr

/-- The resolver's `ClassType` context. -/
inductive ClassType where
  | noneC | classC
deriving DecidableEq, Repr

/-- The state a `Resolver` carries: the scope-map stack (head =
innermost), the two context kinds, and — standing for the back-reference
to the interpreter — the `locals` table that `Interpreter::resolve`
writes. -/
structure RSt where
  scopes : List (List (String × Bool))
  function_type : FunctionType
  class_type : ClassType
  locals : List (Expression × Nat)

/-- Result of resolving an expression: `Result<(), ResolverError>` with
the mutated resolver state carried on both paths (a failed branch has
still performed its earlier recordings). -/
inductive ERes where
  | ok (st : RSt)
  | err (e : ResolverError) (st : RSt)

/-- Result of resolving a statement: like `ERes` but with the extra
outcome of the `todo!()` panic in the `Statement::For` arm. -/
inductive SRes where
  | ok (st : RSt)
  | err (e : ResolverError) (st : RSt)
  | rpanic

/-- The `?` operator on an expression-resolution result. -/
def ERes.and_then (x : ERes) (f : RSt → ERes) : ERes :=
  match x with
  | .ok st => f st
  | .err e st => .err e st

/-- Rust's `Result::and` with its eagerly evaluated argument: both sides
run (the receiver first), the first error wins. -/
def ERes.rand (x : ERes) (f : RSt → ERes) : ERes :=
  match x with
  | .ok st => f st
  | .err e st =>
      match f st with
      | .ok st' => .err e st'
      | .err _ st' => .err e st'

/-- The `?` operator on a statement-resolution result. -/
def SRes.and_then (x : SRes) (f : RSt → SRes) : SRes :=
  match x with
  | .ok st => f st
  | .err e st => .err e st
  | .rpanic => .rpanic

/-- Lift an expression-resolution result into a statement result. -/
def eToS : ERes → SRes
  | .ok st => .ok st
  | .err e st => .err e st

/-- The `?` operator applied to an expression result inside a statement
arm. -/
def eThen (x : ERes) (f : RSt → SRes) : SRes :=
  match x with
  | .ok st => f st
  | .err e st => .err e st

/-- Rust's `Result::and` combining an expression result with an eagerly
evaluated statement result (the `While` arm); a panic while resolving the
argument escapes even when the receiver already failed. -/
def esand (x : ERes) (f : RSt → SRes) : SRes :=
  match x with
  | .ok st => f st
  | .err e st =>
      match f st with
      | .ok st' => .err e st'
      | .err _ st' => .err e st'
      | .rpanic => .rpanic

/-- `Resolver::begin_scope`. -/
def begin_scope (st : RSt) : RSt :=
  { st with scopes := [] :: st.scopes }

/-- `Resolver::end_scope`. -/
def end_scope (st : RSt) : RSt :=
  { st with scopes := st.scopes.tail }

/-- `HashMap::get` on one scope map. -/
def scope_get : List (String × Bool) → String → Option Bool
  | [], _ => Option.none
  | (k, b) :: rest, key => if k = key then Option.some b else scope_get rest key

/-- `HashMap::insert` on one scope map. -/
def scope_insert : List (String × Bool) → String → Bool → List (String × Bool)
  | [], key, b => [(key, b)]
  | (k, b0) :: rest, key, b =>
      if k = key then (key, b) :: rest else (k, b0) :: scope_insert rest key b

/-- `Resolver::declare`: a no-op without an open scope; an error if the
name is already present in the innermost scope; else mark it
`declared = false`. -/
def Resolver.declare (name : String) (st : RSt) : ERes :=
  match st.scopes with
  | [] => .ok st
  | scope :: rest =>
      if (scope_get scope name).isSome then .err (.variableAlreadyExists name) st
      else .ok { st with scopes := scope_insert scope name false :: rest }

/-- `Resolver::define`: mark the name `defined = true` in the innermost
scope (no-op without one). -/
def Resolver.define (name : String) (st : RSt) : RSt :=
  match st.scopes with
  | [] => st
  | scope :: rest => { st with scopes := scope_insert scope name true :: rest }

/-- Zero-based index (innermost outward) of the first scope map
containing the name. -/
def find_scope_index : List (List (String × Bool)) → String → Option Nat
  | [], _ => Option.none
  | scope :: rest, name =>
      if (scope_get scope name).isSome then Option.some 0
      else (find_scope_index rest name).map (fun i => i + 1)

/-- `Resolver::resolve_local`: record the distance to the first scope
containing the name against this expression's key via
`Interpreter::resolve`; record nothing when no scope contains it. -/
def resolve_local (st : RSt) (expr : Expression) (name : String) : RSt :=
  match find_scope_index st.scopes name with
  | Option.some idx => { st with locals := Interpreter.resolve st.locals expr idx }
  | Option.none => st

/-- The `Expression::Var` arm of `resolve_expression`: error when the
innermost scope holds the name still `declared = false`, else resolve it
locally. -/
def resolve_var_arm (name : String) (token : Token) (st : RSt) : ERes :=
  match st.scopes with
  | scope :: _ =>
      if scope_get scope name = Option.some false then .err (.notInitialized name) st
      else .ok (resolve_local st (.varE name token) name)
  | [] => .ok (resolve_local st (.varE name token) name)

/-- The `Expression::This` arm of `resolve_expression`: legal only inside
a class context. -/
def resolve_this_arm (keyword : Token) (st : RSt) : ERes :=
  if st.class_type ≠ .classC then .err (.invalidThis keyword.line) st
  else .ok (resolve_local st (.thisE keyword) keyword.lexeme)

/-- The parameter loop of `resolve_function`: declare then define each
parameter in order. -/
def declare_params : List Token → RSt → ERes
  | [], st => .ok st
  | p :: rest, st =>
      (Resolver.declare p.lexeme st).and_then fun st1 =>
        declare_params rest (Resolver.define p.lexeme st1)

mutual
/-- `Resolver::resolve_expression`. -/
def resolve_expression : Expression → RSt → ERes
  | .varE name token, st => resolve_var_arm name token st
  | .thisE keyword, st => resolve_this_arm keyword st
  | .binary left _ right, st =>
      (resolve_expression left st).rand (fun st1 => resolve_expression right st1)
  | .grouping e, st => resolve_expression e st
  | .unary _ e, st => resolve_expression e st
  | .assignment name value token, st =>
      (resolve_expression value st).and_then fun st1 =>
        .ok (resolve_local st1 (.assignment name value token) name)
  | .orE left right, st =>
      (resolve_expression left st).rand (fun st1 => resolve_expression right st1)
  | .andE left right, st =>
      (resolve_expression left st).rand (fun st1 => resolve_expression right st1)
  | .call callee _ args, st =>
      (resolve_expression callee st).and_then fun st1 => resolve_expr_list args st1
  | .getE expression _, st => resolve_expression expression st
  | .setE _ object value, st =>
      (resolve_expression object st).rand (fun st1 => resolve_expression value st1)
  | .trueE, st => .ok st
  | .falseE, st => .ok st
  | .number _, st => .ok st
  | .stringE _, st => .ok st
  | .nilE, st => .ok st

/-- The `for arg in args` loop of the `Call` arm. -/
def resolve_expr_list : List Expression → RSt → ERes
  | [], st => .ok st
  | e :: rest, st =>
      (resolve_expression e st).and_then fun st1 => resolve_expr_list rest st1
end

/-- `if let Some(scope) = self.scopes.last_mut() { scope.insert("this", true) }`. -/
def insert_this (st : RSt) : RSt :=
  match st.scopes with
  | [] => st
  | scope :: rest => { st with scopes := scope_insert scope "this" true :: rest }

mutual
/-- `Resolver::resolve_statement`.  The `Statement::For` arm is
`todo!()` in the source and therefore panics. -/
def resolve_statement : Statement → RSt → SRes
  | .block b, st =>
      SRes.and_then (resolve_statements b (begin_scope st)) fun st1 => .ok (end_scope st1)
  | .variableDeclaration name Option.none, st =>
      eThen (Resolver.declare name st) fun st1 => .ok (Resolver.define name st1)
  | .variableDeclaration name (Option.some initializer), st =>
      eThen (Resolver.declare name st) fun st1 =>
      eThen (resolve_expression initializer st1) fun st2 =>
      .ok (Resolver.define name st2)
  | .classDeclaration name methods, st =>
      eThen (Resolver.declare name st) fun st1 =>
      let st2 := Resolver.define name st1
      let current_class := st2.class_type
      SRes.and_then
        (resolve_methods methods (insert_this (begin_scope { st2 with class_type := .classC })))
        fun st3 => .ok { end_scope st3 with class_type := current_class }
  | .expression e, st => eToS (resolve_expression e st)
  | .print e, st => eToS (resolve_expression e st)
  | .functionDeclaration name parameters body, st =>
      eThen (Resolver.declare name st) fun st1 =>
      eThen (declare_params parameters
          (begin_scope { Resolver.define name st1 with function_type := .function }))
        fun st2 =>
      SRes.and_then (resolve_statements body st2) fun st3 =>
      .ok { end_scope st3 with function_type := .noneF }
  | .ifS condition then_branch Option.none, st =>
      eThen (resolve_expression condition st) fun st1 => resolve_statement then_branch st1
  | .ifS condition then_branch (Option.some else_branch), st =>
      eThen (resolve_expression condition st) fun st1 =>
      SRes.and_then (resolve_statement then_branch st1) fun st2 =>
      resolve_statement else_branch st2
  | .whileS condition body, st =>
      esand (resolve_expression condition st) (fun st1 => resolve_statement body st1)
  | .forS _ _ _ _, _ => .rpanic
  | .returnS _ Option.none, st =>
      if st.function_type = .function ∨ st.function_type = .method then .ok st
      else .err .returnNotInFunction st
  | .returnS _ (Option.some expression), st =>
      if st.function_type = .function ∨ st.function_type = .method then
        eToS (resolve_expression expression st)
      else .err .returnNotInFunction st
  | .breakS _, st => .ok st
  | .continueS _, st => .ok st

/-- `Resolver::resolve_statements`. -/
def resolve_statements : List Statement → RSt → SRes
  | [], st => .ok st
  | s :: rest, st =>
      SRes.and_then (resolve_statement s st) fun st1 => resolve_statements rest st1

/-- The `for method in methods` loop of the class arm: set the context to
`Method`, then run `resolve_function` (whose body is inlined here: the
`Method` context assignment is immediately overwritten because
`resolve_function` sets the context to `Function`, opens a scope,
declares+defines the parameters, resolves the body, closes the scope and
resets the context to `None` — the source restores `None`, not the saved
value). -/
def resolve_methods : List (String × List Token × List Statement) → RSt → SRes
  | [], st => .ok st
  | (_, mparams, mbody) :: rest, st =>
      SRes.and_then
        (eThen (declare_params mparams
            (begin_scope { st with function_type := .function }))
          fun st1 =>
         SRes.and_then (resolve_statements mbody st1) fun st2 =>
         .ok { end_scope st2 with function_type := .noneF })
        fun st3 => resolve_methods rest st3
end

/-- `Resolver::new`: empty scope stack, no context, empty depth table. -/
def Resolver.new : RSt :=
  { scopes := [], function_type := .noneF, class_type := .noneC, locals := [] }

/-- Depth table of a successful statement resolution. -/
def sres_locals : SRes → Option (List (Expression × Nat))
  | .ok st => Option.some st.locals
  | _ => Option.none

/-- Error of a failed statement resolution. -/
def sres_error : SRes → Option ResolverError
  | .err e _ => Option.some e
  | _ => Option.none

mutual
/-- A statement that contains no `for` statement anywhere. -/
def for_free : Statement → Bool
  | .expression _ => true
  | .print _ => true
  | .variableDeclaration _ _ => true
  | .functionDeclaration _ _ body => for_free_list body
  | .block b => for_free_list b
  | .ifS _ t Option.none => for_free t
  | .ifS _ t (Option.some e) => for_free t && for_free e
  | .whileS _ body => for_free body
  | .forS _ _ _ _ => false
  | .classDeclaration _ methods => for_free_methods methods
  | .returnS _ _ => true
  | .breakS _ => true
  | .continueS _ => true

/-- `for_free` on every statement of a list. -/
def for_free_list : List Statement → Bool
  | [] => true
  | s :: rest => for_free s && for_free_list rest

/-- `for_free` on every method body of a class declaration. -/
def for_free_methods : List (String × List Token × List Statement) → Bool
  | [] => true
  | (_, _, mbody) :: rest => for_free_list mbody && for_free_methods rest
end

/-- Read `name` in the frame `i` points to. -/
def frame_read (st : St) (i : Nat) (name : String) : Option LoxValue :=
  (frameGet st i).bind fun f => values_get f.values name

/-- Overwrite-only write of `name` into the frame `target` points to
(specification-side restatement of the write half of `assign_at`). -/
def assign_overwrite (st : St) (target : Nat) (name : String) (v : LoxValue) : Bool × St :=
  match frameGet st target with
  | Option.some f =>
      match values_assign f.values name v with
      | Option.some l => (true, frameSet st target { f with values := l })
      | Option.none => (false, st)
  | Option.none => (false, st)

/-- Whether the frame `j` points to currently binds `name`. -/
def frame_has (st : St) (j : Nat) (name : String) : Bool :=
  match frameGet st j with
  | Option.some f => (values_get f.values name).isSome
  | Option.none => false

/-- The bound names of the frame at heap slot `j` (in storage order). -/
def frame_names (st : St) (j : Nat) : Option (List String) :=
  (st.env_heap[j]?).map fun f => f.values.map Prod.fst

/-- Build a token. -/
def tok (ty : TokenType) (lx : String) (ln : Nat) : Token := ⟨ty, lx, ln⟩

/-- An identifier token whose lexeme is the identifier itself. -/
def idTok (s : String) (ln : Nat) : Token := tok (.identifier s) s ln

/-- The variable expression `x` (line 1). -/
def varX : Expression := .varE "x" (idTok "x" 1)

/-- The assignment expression `x = 2` (line 1). -/
def assignX2 : Expression := .assignment "x" (.number 2) (tok .equal "=" 1)

/-- The program `{ var x = 1; x = 2; }`. -/
def p1 : List Statement :=
  [.block [.variableDeclaration "x" (Option.some (.number 1)), .expression assignX2]]

/-- The program `class C { init() {} } var c = C(); var d = c.init();`. -/
def p3 : List Statement :=
  [.classDeclaration "C" [("init", [], [])],
   .variableDeclaration "c"
     (Option.some (.call (.varE "C" (idTok "C" 1)) (tok .leftParen "(" 1) [])),
   .variableDeclaration "d" (Option.some
     (.call (.getE (.varE "c" (idTok "c" 1)) (idTok "init" 1)) (tok .leftParen "(" 1) []))]

/-- The counter program of the closure property:
`fun counter() { var i = 0; fun inc() { i = i + 1; return i; } return inc; }
var c = counter(); var a = c();`. -/
def p4 : List Statement :=
  [.functionDeclaration "counter" []
    [.variableDeclaration "i" (Option.some (.number 0)),
     .functionDeclaration "inc" []
       [.expression (.assignment "i"
          (.binary (.varE "i" (idTok "i" 1)) (tok .plus "+" 1) (.number 1))
          (tok .equal "=" 1)),
        .returnS (tok .returnK "return" 1) (Option.some (.varE "i" (idTok "i" 1)))],
     .returnS (tok .returnK "return" 1) (Option.some (.varE "inc" (idTok "inc" 1)))],
   .variableDeclaration "c"
     (Option.some (.call (.varE "counter" (idTok "counter" 1)) (tok .leftParen "(" 1) [])),
   .variableDeclaration "a"
     (Option.some (.call (.varE "c" (idTok "c" 1)) (tok .leftParen "(" 1) []))]

/-- The program `fun f() { var x = 1; { print x; } print x; }`, written on
one source line so both `print x` occurrences carry the same token. -/
def p6 : List Statement :=
  [.functionDeclaration "f" []
    [.variableDeclaration "x" (Option.some (.number 1)),
     .block [.print varX],
     .print varX]]

/-- The global binding `name` holds in the final state of a program run
(`Option.none` when the run did not end in `ok`). -/
def final_global (r : Res Unit) (name : String) : Option LoxValue :=
  match r with
  | .ok _ st => Environment.get st st.globals name
  | _ => Option.none

/-- A two-frame chain: heap slot 0 is the outer frame `{x ↦ 2}`, slot 1
the starting frame `{x ↦ 1}` enclosing slot 0. -/
def stC2 : St :=
  { env_heap := [⟨[("x", .number 2)], Option.none⟩, ⟨[("x", .number 1)], Option.some 0⟩],
    inst_heap := [], environment_stack := [1], globals := 0, locals := [], output := [] }

/-- The token `!` (line 1). -/
def bangTok : Token := tok .bang "!" 1

/-- The token `/` (line 1). -/
def slashTok : Token := tok .slash "/" 1

/-- The environment-stack discipline of a single interpreter step: `ok`
and `err` outcomes leave the stack exactly as found (the pop of
`execute_block` also runs on the error path), and the empty-stack
`unwrap` panic cannot fire when the stack was nonempty. -/
def stack_preserved {α : Type} (st : St) : Res α → Prop
  | .ok _ st' => st'.environment_stack = st.environment_stack
  | .err _ _ st' => st'.environment_stack = st.environment_stack
  | .panicRes m => st.environment_stack ≠ [] → m ≠ empty_stack_msg
  | .timeout => True

/-- A computation all of whose runs obey `stack_preserved`. -/
def GoodM {α : Type} (x : M α) : Prop := ∀ st, stack_preserved st (x st)

theorem ancestor_walk_none (st : St) (d : Nat) :
    ancestor_walk st Option.none d = Option.none := by
  cases d <;> simp [ancestor_walk]

theorem ancestor_walk_some (st : St) (d : Nat) :
    ∀ j : Nat, ancestor_walk st (Option.some j) d = walk_links st j d := by
  induction d with
  | zero => intro j; simp [ancestor_walk, walk_links]
  | succ d ih =>
      intro j
      show ancestor_walk st ((frameGet st j).bind Frame.enclosing) d = walk_links st j (d + 1)
      cases h : (frameGet st j).bind Frame.enclosing with
      | none => simp [walk_links, h, ancestor_walk_none]
      | some k => simp [walk_links, h, ih]

theorem ancestor_eq_walk_links (st : St) (i d : Nat) :
    Environment.ancestor st i d = walk_links st i (d + 1) := by
  show ancestor_walk st ((frameGet st i).bind Frame.enclosing) d = walk_links st i (d + 1)
  cases h : (frameGet st i).bind Frame.enclosing with
  | none => simp [walk_links, h, ancestor_walk_none]
  | some k => simp [walk_links, h, ancestor_walk_some]

theorem values_assign_none_iff (l : List (String × LoxValue)) (name : String) (v : LoxValue) :
    values_assign l name v = Option.none ↔ values_get l name = Option.none := by
  induction l with
  | nil => simp [values_assign, values_get]
  | cons kv rest ih =>
      obtain ⟨k, v0⟩ := kv
      by_cases h : k = name <;> simp [values_assign, values_get, h, ih]

theorem values_assign_keys (l : List (String × LoxValue)) (name : String) (v : LoxValue) :
    ∀ l', values_assign l name v = Option.some l' → l'.map Prod.fst = l.map Prod.fst := by
  induction l with
  | nil => intro l' h; simp [values_assign] at h
  | cons kv rest ih =>
      intro l' h
      obtain ⟨k, v0⟩ := kv
      by_cases hk : k = name
      · simp [values_assign, hk] at h
        subst h
        simp [hk]
      · simp [values_assign, hk] at h
        obtain ⟨l'', h1, h2⟩ := h
        subst h2
        simp [ih l'' h1]

/-- C2, counterexample.  On the chain `stC2` (starting frame 1 holding
`x ↦ 1`, its single enclosing frame 0 holding `x ↦ 2`), walking exactly
one enclosing link reaches frame 0, whose `x` is `2`; but
`get_at("x", 1)` returns `1`: `ancestor` starts the walk at the enclosing
link and then walks one more, overrunning the chain, and the overrun
falls back to reading the starting frame instead of returning `None`. -/
theorem c2_counterexample :
    Environment.get_at stC2 1 "x" 1 = Option.some (.number 1) ∧
    ¬ Environment.get_at stC2 1 "x" 1 = Option.some (.number 2) ∧
    walk_links stC2 1 1 = Option.some 0 ∧
    frame_read stC2 0 "x" = Option.some (.number 2) := by
  refine ⟨rfl, ?_, rfl, rfl⟩
  intro h
  rw [show Environment.get_at stC2 1 "x" 1 = Option.some (.number 1) from rfl] at h
  simp only [Option.some.injEq, LoxValue.number.injEq] at h
  norm_num at h

/-- C2 (amended): `get_at(name, 0)` reads the starting frame; for
`d ≠ 0`, `get_at(name, d)` reads the frame reached by walking `d + 1`
enclosing links (one more than the claim's `d`), and when that walk
overruns the chain it falls back to reading the starting frame instead of
returning `None`; `assign_at(name, v, d)` targets the frame reached by
the same `d + 1`-link walk (the starting frame on overrun, with no
special case for `d = 0`), overwrites only an existing binding there —
its result is exactly "the target frame already binds `name`" — and
never creates or removes a binding in any frame. -/
theorem c2_get_at_assign_at_characterization :
    (∀ st i name, Environment.get_at st i name 0 = frame_read st i name) ∧
    (∀ st i name d, d ≠ 0 →
      Environment.get_at st i name d =
        (match walk_links st i (d + 1) with
         | Option.some j => frame_read st j name
         | Option.none => frame_read st i name)) ∧
    (∀ st i name v d,
      Environment.assign_at st i name v d =
        assign_overwrite st ((walk_links st i (d + 1)).getD i) name v) ∧
    (∀ st target name v,
      (assign_overwrite st target name v).1 = frame_has st target name) ∧
    (∀ st target name v j,
      frame_names (assign_overwrite st target name v).2 j = frame_names st j) := by
  refine ⟨fun st i name => rfl, ?_, ?_, ?_, ?_⟩
  · intro st i name d hd
    rw [Environment.get_at, if_neg hd, ← ancestor_eq_walk_links]
    cases Environment.ancestor st i d <;> rfl
  · intro st i name v d
    rw [Environment.assign_at, ancestor_eq_walk_links]
    cases walk_links st i (d + 1) <;> rfl
  · intro st target name v
    rw [assign_overwrite, frame_has]
    cases hf : frameGet st target with
    | none => rfl
    | some f =>
        cases ha : values_assign f.values name v with
        | none =>
            have h2 := (values_assign_none_iff f.values name v).mp ha
            simp [ha, h2]
        | some l =>
            have h2 : values_get f.values name ≠ Option.none := by
              intro hc
              rw [(values_assign_none_iff f.values name v).mpr hc] at ha
              cases ha
            simp [ha, Option.isSome_iff_ne_none.mpr h2]
  · intro st target name v j
    rw [assign_overwrite]
    cases hf : frameGet st target with
    | none => rfl
    | some f =>
        cases ha : values_assign f.values name v with
        | none => simp only [ha]
        | some l =>
            simp only [ha]
            show frame_names (frameSet st target { f with values := l }) j = frame_names st j
            rw [frame_names, frame_names, frameSet]
            by_cases hj : j = target
            · subst hj
              have hlen : j < st.env_heap.length := by
                by_contra hlen
                push_neg at hlen
                rw [frameGet] at hf
                rw [List.getElem?_eq_none hlen] at hf
                cases hf
              rw [List.getElem?_set_self (by exact hlen)]
              rw [frameGet] at hf
              rw [hf]
              simp [values_assign_keys f.values name v l ha]
            · rw [List.getElem?_set_ne (by omega)]

/-- C2, witness: the amended characterization applied on `stC2` at
distance 1 (so the `d ≠ 0` hypothesis is discharged concretely). -/
theorem c2_witness :
    Environment.get_at stC2 1 "x" 1 =
      (match walk_links stC2 1 2 with
       | Option.some j => frame_read stC2 j "x"
       | Option.none => frame_read stC2 1 "x") :=
  c2_get_at_assign_at_characterization.2.1 stC2 1 "x" 1 (by decide)

theorem eqExpr_iff (a : Expression) : ∀ b, eqExpr a b = true ↔ a = b :=
  @Expression.rec (fun a => ∀ b, eqExpr a b = true ↔ a = b)
    (fun l => ∀ l', eqExprList l l' = true ↔ l = l')
    (fun l op r ihl ihr b => by
      cases b <;> first
        | exact iff_of_false (fun h => Bool.noConfusion h) (fun h => Expression.noConfusion h)
        | (rename_i l' op' r'
           show (eqExpr l l' && op == op' && eqExpr r r') = true ↔
             Expression.binary l op r = Expression.binary l' op' r'
           simp [and_assoc, ihl, ihr]))
    (fun e ih b => by
      cases b <;> first
        | exact iff_of_false (fun h => Bool.noConfusion h) (fun h => Expression.noConfusion h)
        | (rename_i e'
           show eqExpr e e' = true ↔ Expression.grouping e = Expression.grouping e'
           simp [ih]))
    (fun t e ih b => by
      cases b <;> first
        | exact iff_of_false (fun h => Bool.noConfusion h) (fun h => Expression.noConfusion h)
        | (rename_i t' e'
           show (t == t' && eqExpr e e') = true ↔ Expression.unary t e = Expression.unary t' e'
           simp [and_assoc, ih]))
    (fun n t b => by
      cases b <;> first
        | exact iff_of_false (fun h => Bool.noConfusion h) (fun h => Expression.noConfusion h)
        | (rename_i n' t'
           show (n == n' && t == t') = true ↔ Expression.varE n t = Expression.varE n' t'
           simp [and_assoc]))
    (fun n v t ih b => by
      cases b <;> first
        | exact iff_of_false (fun h => Bool.noConfusion h) (fun h => Expression.noConfusion h)
        | (rename_i n' v' t'
           show (n == n' && eqExpr v v' && t == t') = true ↔
             Expression.assignment n v t = Expression.assignment n' v' t'
           simp [and_assoc, ih]))
    (fun l r ihl ihr b => by
      cases b <;> first
        | exact iff_of_false (fun h => Bool.noConfusion h) (fun h => Expression.noConfusion h)
        | (rename_i l' r'
           show (eqExpr l l' && eqExpr r r') = true ↔
             Expression.orE l r = Expression.orE l' r'
           simp [and_assoc, ihl, ihr]))
    (fun l r ihl ihr b => by
      cases b <;> first
        | exact iff_of_false (fun h => Bool.noConfusion h) (fun h => Expression.noConfusion h)
        | (rename_i l' r'
           show (eqExpr l l' && eqExpr r r') = true ↔
             Expression.andE l r = Expression.andE l' r'
           simp [and_assoc, ihl, ihr]))
    (fun c p args ihc ihargs b => by
      cases b <;> first
        | exact iff_of_false (fun h => Bool.noConfusion h) (fun h => Expression.noConfusion h)
        | (rename_i c' p' args'
           show (eqExpr c c' && p == p' && eqExprList args args') = true ↔
             Expression.call c p args = Expression.call c' p' args'
           simp [and_assoc, ihc, ihargs]))
    (fun e t ih b => by
      cases b <;> first
        | exact iff_of_false (fun h => Bool.noConfusion h) (fun h => Expression.noConfusion h)
        | (rename_i e' t'
           show (eqExpr e e' && t == t') = true ↔
             Expression.getE e t = Expression.getE e' t'
           simp [and_assoc, ih]))
    (fun n o v iho ihv b => by
      cases b <;> first
        | exact iff_of_false (fun h => Bool.noConfusion h) (fun h => Expression.noConfusion h)
        | (rename_i n' o' v'
           show (n == n' && eqExpr o o' && eqExpr v v') = true ↔
             Expression.setE n o v = Expression.setE n' o' v'
           simp [and_assoc, iho, ihv]))
    (fun b => by
      cases b <;> first
        | exact iff_of_false (fun h => Bool.noConfusion h) (fun h => Expression.noConfusion h)
        | exact iff_of_true rfl rfl)
    (fun b => by
      cases b <;> first
        | exact iff_of_false (fun h => Bool.noConfusion h) (fun h => Expression.noConfusion h)
        | exact iff_of_true rfl rfl)
    (fun q b => by
      cases b <;> first
        | exact iff_of_false (fun h => Bool.noConfusion h) (fun h => Expression.noConfusion h)
        | (rename_i q'
           show (q == q') = true ↔ Expression.number q = Expression.number q'
           simp))
    (fun s b => by
      cases b <;> first
        | exact iff_of_false (fun h => Bool.noConfusion h) (fun h => Expression.noConfusion h)
        | (rename_i s'
           show (s == s') = true ↔ Expression.stringE s = Expression.stringE s'
           simp))
    (fun b => by
      cases b <;> first
        | exact iff_of_false (fun h => Bool.noConfusion h) (fun h => Expression.noConfusion h)
        | exact iff_of_true rfl rfl)
    (fun k b => by
      cases b <;> first
        | exact iff_of_false (fun h => Bool.noConfusion h) (fun h => Expression.noConfusion h)
        | (rename_i k'
           show (k == k') = true ↔ Expression.thisE k = Expression.thisE k'
           simp))
    (fun l' => by
      cases l' with
      | nil => exact iff_of_true rfl rfl
      | cons e' r' =>
          exact iff_of_false (fun h => Bool.noConfusion h) (fun h => List.noConfusion h))
    (fun e r ihe ihr l' => by
      cases l' with
      | nil => exact iff_of_false (fun h => Bool.noConfusion h) (fun h => List.noConfusion h)
      | cons e' r' =>
          show (eqExpr e e' && eqExprList r r') = true ↔ e :: r = e' :: r'
          simp [and_assoc, ihe, ihr])
    a

theorem eqExpr_of_ne {e1 e2 : Expression} (h : e1 ≠ e2) : eqExpr e1 e2 = false := by
  rw [← Bool.not_eq_true, eqExpr_iff]
  exact h

theorem eqExpr_self (e : Expression) : eqExpr e e = true :=
  (eqExpr_iff e e).mpr rfl

theorem resolve_preserves_other_keys (locals : List (Expression × Nat)) (e1 e2 : Expression)
    (d2 : Nat) (h : e1 ≠ e2) :
    locals_get (Interpreter.resolve locals e2 d2) e1 = locals_get locals e1 := by
  have h21 : eqExpr e2 e1 = false := eqExpr_of_ne (fun hh => h hh.symm)
  induction locals with
  | nil => simp [Interpreter.resolve, locals_get, h21]
  | cons kv rest ih =>
      obtain ⟨k, d⟩ := kv
      by_cases hk : eqExpr k e2 = true
      · have hke : k = e2 := (eqExpr_iff k e2).mp hk
        subst hke
        simp [Interpreter.resolve, hk, locals_get, h21]
      · simp [Interpreter.resolve, hk, locals_get, ih]

theorem resolve_records_key (locals : List (Expression × Nat)) (e : Expression) (d : Nat) :
    locals_get (Interpreter.resolve locals e d) e = Option.some d := by
  induction locals with
  | nil => simp [Interpreter.resolve, locals_get, eqExpr_self]
  | cons kv rest ih =>
      obtain ⟨k, d0⟩ := kv
      by_cases hk : eqExpr k e = true
      · simp [Interpreter.resolve, hk, locals_get, eqExpr_self]
      · simp [Interpreter.resolve, hk, locals_get, ih]

theorem SRes.and_then_ne_rpanic (x : SRes) (f : RSt → SRes)
    (hx : x ≠ .rpanic) (hf : ∀ st, f st ≠ .rpanic) : x.and_then f ≠ .rpanic := by
  cases x with
  | ok st => exact hf st
  | err e st => simp [SRes.and_then]
  | rpanic => exact absurd rfl hx

theorem eThen_ne_rpanic (x : ERes) (f : RSt → SRes) (hf : ∀ st, f st ≠ .rpanic) :
    eThen x f ≠ .rpanic := by
  cases x with
  | ok st => exact hf st
  | err e st => simp [eThen]

theorem eToS_ne_rpanic (x : ERes) : eToS x ≠ .rpanic := by
  cases x <;> simp [eToS]

theorem esand_ne_rpanic (x : ERes) (f : RSt → SRes) (hf : ∀ st, f st ≠ .rpanic) :
    esand x f ≠ .rpanic := by
  cases x with
  | ok st => exact hf st
  | err e st =>
      cases hfst : f st with
      | ok st' => simp [esand, hfst]
      | err e' st' => simp [esand, hfst]
      | rpanic => exact absurd hfst (hf st)

theorem sres_ok_ne_rpanic (st : RSt) : (SRes.ok st) ≠ .rpanic := by simp

theorem sres_err_ne_rpanic (e : ResolverError) (st : RSt) : (SRes.err e st) ≠ .rpanic := by simp

mutual
theorem resolve_statement_no_rpanic (s : Statement) :
    ∀ st : RSt, for_free s = true → resolve_statement s st ≠ .rpanic := by
  cases s with
  | expression e => intro st _; exact eToS_ne_rpanic _
  | print e => intro st _; exact eToS_ne_rpanic _
  | variableDeclaration name init =>
      cases init with
      | none =>
          intro st _
          exact eThen_ne_rpanic _ _ (fun st1 => sres_ok_ne_rpanic _)
      | some i =>
          intro st _
          exact eThen_ne_rpanic _ _ (fun st1 =>
            eThen_ne_rpanic _ _ (fun st2 => sres_ok_ne_rpanic _))
  | functionDeclaration name parameters body =>
      intro st h
      exact eThen_ne_rpanic _ _ (fun st1 =>
        eThen_ne_rpanic _ _ (fun st2 =>
          SRes.and_then_ne_rpanic _ _
            (resolve_statements_no_rpanic body st2 (by simpa [for_free] using h))
            (fun st3 => sres_ok_ne_rpanic _)))
  | block b =>
      intro st h
      exact SRes.and_then_ne_rpanic _ _
        (resolve_statements_no_rpanic b _ (by simpa [for_free] using h))
        (fun st1 => sres_ok_ne_rpanic _)
  | ifS condition then_branch else_branch =>
      cases else_branch with
      | none =>
          intro st h
          exact eThen_ne_rpanic _ _ (fun st1 =>
            resolve_statement_no_rpanic then_branch st1 (by simpa [for_free] using h))
      | some e =>
          intro st h
          rw [for_free, Bool.and_eq_true] at h
          exact eThen_ne_rpanic _ _ (fun st1 =>
            SRes.and_then_ne_rpanic _ _
              (resolve_statement_no_rpanic then_branch st1 h.1)
              (fun st2 => resolve_statement_no_rpanic e st2 h.2))
  | whileS condition body =>
      intro st h
      exact esand_ne_rpanic _ _ (fun st1 =>
        resolve_statement_no_rpanic body st1 (by simpa [for_free] using h))
  | forS i c inc body => intro st h; simp [for_free] at h
  | classDeclaration name methods =>
      intro st h
      exact eThen_ne_rpanic _ _ (fun st1 =>
        SRes.and_then_ne_rpanic _ _
          (resolve_methods_no_rpanic methods _ (by simpa [for_free] using h))
          (fun st3 => sres_ok_ne_rpanic _))
  | returnS keyword e =>
      cases e with
      | none =>
          intro st _
          rw [resolve_statement]
          split
          · exact sres_ok_ne_rpanic _
          · exact sres_err_ne_rpanic _ _
      | some ex =>
          intro st _
          rw [resolve_statement]
          split
          · exact eToS_ne_rpanic _
          · exact sres_err_ne_rpanic _ _
  | breakS keyword => intro st _; exact sres_ok_ne_rpanic _
  | continueS keyword => intro st _; exact sres_ok_ne_rpanic _

theorem resolve_statements_no_rpanic (l : List Statement) :
    ∀ st : RSt, for_free_list l = true → resolve_statements l st ≠ .rpanic := by
  cases l with
  | nil => intro st _; exact sres_ok_ne_rpanic _
  | cons s rest =>
      intro st h
      rw [for_free_list, Bool.and_eq_true] at h
      exact SRes.and_then_ne_rpanic _ _
        (resolve_statement_no_rpanic s st h.1)
        (fun st1 => resolve_statements_no_rpanic rest st1 h.2)

theorem resolve_methods_no_rpanic (l : List (String × List Token × List Statement)) :
    ∀ st : RSt, for_free_methods l = true → resolve_methods l st ≠ .rpanic := by
  cases l with
  | nil => intro st _; exact sres_ok_ne_rpanic _
  | cons m rest =>
      obtain ⟨mname, mparams, mbody⟩ := m
      intro st h
      rw [for_free_methods, Bool.and_eq_true] at h
      exact SRes.and_then_ne_rpanic _ _
        (eThen_ne_rpanic _ _ (fun st1 =>
          SRes.and_then_ne_rpanic _ _
            (resolve_statements_no_rpanic mbody st1 h.1)
            (fun st2 => sres_ok_ne_rpanic _)))
        (fun st3 => resolve_methods_no_rpanic rest st3 h.2)
end

/-- C1: on `{ var x = 1; x = 2; }` the Resolver records distance 0 under
the assignment expression's own key, but the interpreter's `Assignment`
arm looks the distance up under the key of the *value* subexpression
(the literal `2`), finds nothing, and runs into the `todo!()` panic —
there is no `assign_at` at the recorded distance and no global fallback
on this path. -/
theorem c1_assignment_depth_lookup :
    sres_locals (resolve_statements p1 Resolver.new) = Option.some [(assignX2, 0)] ∧
    locals_get [(assignX2, 0)] (Expression.number 2) = Option.none ∧
    interpret 9 p1 (Interpreter.new.with_locals [(assignX2, 0)]) = .panicRes todo_msg :=
  ⟨rfl, rfl, rfl⟩

/-- C3: running
`class C { init() {} } var c = C(); var d = c.init();` the constructor
call does yield the fresh instance (`c` is instance 0), but the call of
the bound initializer itself yields `Nil`, not the `this` value: the
unwrap reads `"init"` (not `"this"`) at distance 0 from the bound
closure, whose only binding is `this`, so `unwrap_or(Nil)` produces
`Nil` and `d ≠ c`. -/
theorem c3_initializer_returns_nil :
    final_global (interpret 30 p3 Interpreter.new) "c" = Option.some (.instanceV 0) ∧
    final_global (interpret 30 p3 Interpreter.new) "d" = Option.some .nil ∧
    ¬ final_global (interpret 30 p3 Interpreter.new) "d" = Option.some (.instanceV 0) := by
  refine ⟨rfl, rfl, ?_⟩
  intro h
  rw [show final_global (interpret 30 p3 Interpreter.new) "d" = Option.some .nil from rfl] at h
  simp at h

/-- C4: the counter program
`fun counter() { var i = 0; fun inc() { i = i + 1; return i; } return inc; }
var c = counter(); var a = c();` does not exhibit increasing counter
values on this code: the Resolver rejects it with `ReturnNotInFunction`
(`resolve_function` resets the function context to `None` after the
nested declaration instead of restoring the saved value), and running the
interpreter anyway (as `main.rs` does — it never invokes the Resolver)
panics at the `todo!()` in the assignment arm on the first call of the
returned closure. -/
theorem c4_counter_scenario_fails :
    sres_error (resolve_statements p4 Resolver.new) = Option.some .returnNotInFunction ∧
    interpret 30 p4 Interpreter.new = .panicRes todo_msg :=
  ⟨rfl, rfl⟩

/-- C5, counterexample: resolving any `for` statement runs into the
`todo!()` of the `Statement::For` arm and panics instead of returning
`Ok` or a `ResolverError`. -/
theorem c5_for_statement_panics :
    resolve_statement (.forS Option.none Option.none Option.none (.block [])) Resolver.new
      = .rpanic :=
  rfl

/-- C5 (amended): `resolve_statements` is a total function that returns
`Ok(())` or a `ResolverError` — never a panic — on every AST that
contains no `for` statement (in particular `break` and `continue`
resolve without panicking); a `for` statement hits the `todo!()` panic. -/
theorem c5_total_on_for_free (statements : List Statement) (st : RSt)
    (h : for_free_list statements = true) :
    (∃ st', resolve_statements statements st = .ok st') ∨
    (∃ e st', resolve_statements statements st = .err e st') := by
  have hne := resolve_statements_no_rpanic statements st h
  cases hr : resolve_statements statements st with
  | ok st' => exact Or.inl ⟨st', rfl⟩
  | err e st' => exact Or.inr ⟨e, st', rfl⟩
  | rpanic => exact absurd hr hne

/-- C5, witness: the amended theorem applied to a concrete `for`-free
program containing `break` and `continue`. -/
theorem c5_witness :
    (∃ st', resolve_statements
        [.breakS (idTok "break" 1), .continueS (idTok "continue" 1)]
        Resolver.new = .ok st') ∨
    (∃ e st', resolve_statements
        [.breakS (idTok "break" 1), .continueS (idTok "continue" 1)]
        Resolver.new = .err e st') :=
  c5_total_on_for_free _ Resolver.new rfl

/-- C6, counterexample: in
`fun f() { var x = 1; { print x; } print x; }` (one source line) the two
`print x` occurrences are distinct occurrences at distances 1 and 0, but
they are structurally equal expressions, so they share one key in the
`HashMap<Expression, usize>`: the resolver's second recording overwrites
the first, and the final table maps that key to 0 only — the depth 1
recorded for the first occurrence is no longer retrievable. -/
theorem c6_same_key_overwrite :
    sres_locals (resolve_statements p6 Resolver.new) = Option.some [(varX, 0)] ∧
    Interpreter.resolve (Interpreter.resolve [] varX 1) varX 0 = [(varX, 0)] ∧
    locals_get [(varX, 0)] varX = Option.some 0 ∧
    ¬ locals_get [(varX, 0)] varX = Option.some 1 := by
  refine ⟨rfl, rfl, rfl, ?_⟩
  intro h
  rw [show locals_get [(varX, 0)] varX = Option.some 0 from rfl] at h
  simp at h

/-- C6 (amended): the key of the resolved-depth table is the expression's
structural value (name, token type, lexeme and line included), not its
reference identity: recording a depth for an occurrence never changes the
depth recorded under any *structurally distinct* key (e.g. the same
variable name on a different line), and the recorded key itself maps to
the new depth; but two occurrences with identical structure share a single
entry, so the later recording overwrites the earlier one (see the
counterexample). -/
theorem c6_distinct_keys_independent (locals : List (Expression × Nat))
    (e1 e2 : Expression) (d2 : Nat) (h : e1 ≠ e2) :
    locals_get (Interpreter.resolve locals e2 d2) e1 = locals_get locals e1 ∧
    locals_get (Interpreter.resolve locals e2 d2) e2 = Option.some d2 :=
  ⟨resolve_preserves_other_keys locals e1 e2 d2 h,
   resolve_records_key locals e2 d2⟩

/-- C6, witness: the amended theorem applied to two `x` references on
different lines (structurally distinct keys). -/
theorem c6_witness :
    locals_get (Interpreter.resolve [(varX, 1)] (Expression.varE "x" (idTok "x" 2)) 0) varX
      = locals_get [(varX, 1)] varX ∧
    locals_get (Interpreter.resolve [(varX, 1)] (Expression.varE "x" (idTok "x" 2)) 0)
      (Expression.varE "x" (idTok "x" 2)) = Option.some 0 :=
  c6_distinct_keys_independent [(varX, 1)] varX (Expression.varE "x" (idTok "x" 2)) 0
    (by simp [varX, idTok, tok])

/-- C8, counterexample: `!"a"` does not evaluate to
`Boolean(not truthy("a"))` (which would be `Boolean(false)`, strings
being truthy); it is a `WrongUnaryOperands` error — `!` only accepts
`Nil`, `Boolean` and `Number` operands. -/
theorem c8_bang_on_string_errs :
    evaluate 3 (.unary bangTok (.stringE "a")) Interpreter.new
      = .err (.wrongUnaryOperands .bang (.stringV "a")) bangTok Interpreter.new ∧
    (LoxValue.stringV "a").is_truthy = true ∧
    ¬ evaluate 3 (.unary bangTok (.stringE "a")) Interpreter.new
        = .ok (.boolean false) Interpreter.new := by
  have heq : evaluate 3 (.unary bangTok (.stringE "a")) Interpreter.new
      = .err (.wrongUnaryOperands .bang (.stringV "a")) bangTok Interpreter.new := by rfl
  refine ⟨heq, rfl, ?_⟩
  intro h
  rw [heq] at h
  simp at h

/-- C8 (amended): truthiness is false exactly on `Nil`, `Boolean(false)`
and `Number(0.0)` (every other number, string, callable and instance is
truthy); and unary `!` yields `Boolean(not truthy(v))` when the operand
value is `Nil`, a `Boolean`, or a `Number` (so `!0` is true and `!1` is
false), but errors with `WrongUnaryOperands` on strings, callables and
instances instead of negating their truthiness. -/
theorem c8_truthiness_and_bang :
    (∀ v : LoxValue,
      v.is_truthy = false ↔ (v = .nil ∨ v = .boolean false ∨ v = .number 0)) ∧
    (∀ (fuel : Nat) (t : Token) (e : Expression) (st st' : St),
      t.token_type = .bang → evaluate fuel e st = .ok .nil st' →
      evaluate_unary (fuel + 1) t e st = .ok (.boolean (!LoxValue.nil.is_truthy)) st') ∧
    (∀ (fuel : Nat) (t : Token) (e : Expression) (st st' : St) (b : Bool),
      t.token_type = .bang → evaluate fuel e st = .ok (.boolean b) st' →
      evaluate_unary (fuel + 1) t e st
        = .ok (.boolean (!(LoxValue.boolean b).is_truthy)) st') ∧
    (∀ (fuel : Nat) (t : Token) (e : Expression) (st st' : St) (q : Rat),
      t.token_type = .bang → evaluate fuel e st = .ok (.number q) st' →
      evaluate_unary (fuel + 1) t e st
        = .ok (.boolean (!(LoxValue.number q).is_truthy)) st') ∧
    (∀ (fuel : Nat) (t : Token) (e : Expression) (st st' : St) (s : String),
      t.token_type = .bang → evaluate fuel e st = .ok (.stringV s) st' →
      evaluate_unary (fuel + 1) t e st
        = .err (.wrongUnaryOperands .bang (.stringV s)) t st') ∧
    (∀ (fuel : Nat) (t : Token) (e : Expression) (st st' : St) (c : Callable),
      t.token_type = .bang → evaluate fuel e st = .ok (.callable c) st' →
      evaluate_unary (fuel + 1) t e st
        = .err (.wrongUnaryOperands .bang (.callable c)) t st') ∧
    (∀ (fuel : Nat) (t : Token) (e : Expression) (st st' : St) (i : Nat),
      t.token_type = .bang → evaluate fuel e st = .ok (.instanceV i) st' →
      evaluate_unary (fuel + 1) t e st
        = .err (.wrongUnaryOperands .bang (.instanceV i)) t st') := by
  refine ⟨?_, ?_, ?_, ?_, ?_, ?_, ?_⟩
  · intro v
    cases v with
    | nil => simp [LoxValue.is_truthy]
    | boolean b => cases b <;> simp [LoxValue.is_truthy]
    | number q => by_cases hq : q = 0 <;> simp [LoxValue.is_truthy, hq]
    | stringV s => simp [LoxValue.is_truthy]
    | callable c => simp [LoxValue.is_truthy]
    | instanceV i => simp [LoxValue.is_truthy]
  · intro fuel t e st st' ht he
    simp only [evaluate_unary, M.bind]
    rw [he, ht]
    rfl
  · intro fuel t e st st' b ht he
    simp only [evaluate_unary, M.bind]
    rw [he, ht]
    rfl
  · intro fuel t e st st' q ht he
    simp only [evaluate_unary, M.bind]
    rw [he, ht]
    show (if q = 0 then M.pure (LoxValue.boolean true) else M.pure (.boolean false)) st'
      = Res.ok (.boolean (!(LoxValue.number q).is_truthy)) st'
    by_cases hq : q = 0 <;> simp [hq, M.pure, LoxValue.is_truthy]
  · intro fuel t e st st' s ht he
    simp only [evaluate_unary, M.bind]
    rw [he, ht]
    rfl
  · intro fuel t e st st' c ht he
    simp only [evaluate_unary, M.bind]
    rw [he, ht]
    rfl
  · intro fuel t e st st' i ht he
    simp only [evaluate_unary, M.bind]
    rw [he, ht]
    rfl

/-- C8, witness: the amended theorem at concrete inputs — `!0` is true,
`!1` is false, `!"a"` errors. -/
theorem c8_witness :
    evaluate_unary 2 bangTok (.number 0) Interpreter.new
      = .ok (.boolean (!(LoxValue.number 0).is_truthy)) Interpreter.new ∧
    evaluate_unary 2 bangTok (.number 1) Interpreter.new
      = .ok (.boolean (!(LoxValue.number 1).is_truthy)) Interpreter.new ∧
    evaluate_unary 2 bangTok (.stringE "a") Interpreter.new
      = .err (.wrongUnaryOperands .bang (.stringV "a")) bangTok Interpreter.new :=
  ⟨c8_truthiness_and_bang.2.2.2.1 1 bangTok (.number 0) Interpreter.new Interpreter.new 0
      rfl rfl,
   c8_truthiness_and_bang.2.2.2.1 1 bangTok (.number 1) Interpreter.new Interpreter.new 1
      rfl rfl,
   c8_truthiness_and_bang.2.2.2.2.1 1 bangTok (.stringE "a") Interpreter.new Interpreter.new
      "a" rfl rfl⟩

/-- C9: with both operands evaluating to numbers, `/` fails with
`DivisionByZero` exactly when the right operand's value is zero
(the `Number(0f64)` pattern, which also matches `-0.0`), and otherwise
returns their quotient (numbers are modelled as rationals; no infinity
or NaN exists on the error path). -/
theorem c9_division_by_zero (fuel : Nat) (e1 e2 : Expression) (operator : Token)
    (st st1 st2 : St) (a b : Rat) (hop : operator.token_type = .slash)
    (h1 : evaluate fuel e1 st = .ok (.number a) st1)
    (h2 : evaluate fuel e2 st1 = .ok (.number b) st2) :
    evaluate_binary (fuel + 1) e1 operator e2 st =
      if b = 0 then .err .divisionByZero operator st2
      else .ok (.number (a / b)) st2 := by
  simp only [evaluate_binary, M.bind, h1, h2, hop]
  by_cases hb : b = 0 <;> simp [hb, throwE, M.pure]

/-- C9, witness: `1 / 0` errors with `DivisionByZero`, `6 / 3` divides. -/
theorem c9_witness :
    evaluate_binary 2 (.number 1) slashTok (.number 0) Interpreter.new
      = .err .divisionByZero slashTok Interpreter.new ∧
    evaluate_binary 2 (.number 6) slashTok (.number 3) Interpreter.new
      = .ok (.number (6 / 3)) Interpreter.new := by
  constructor
  · have h := c9_division_by_zero 1 (.number 1) (.number 0) slashTok
      Interpreter.new Interpreter.new Interpreter.new 1 0 rfl rfl rfl
    rw [if_pos rfl] at h
    exact h
  · have h := c9_division_by_zero 1 (.number 6) (.number 3) slashTok
      Interpreter.new Interpreter.new Interpreter.new 6 3 rfl rfl rfl
    rw [if_neg (by norm_num)] at h
    exact h

/-- C7: loop control.  (1) a falsy condition ends a `while` with
`Normal`; (2) a body yielding `BreakLoop` ends only this `while`, which
reports `Normal` to its surroundings (so an enclosing loop keeps
running); (3) a body yielding `Return` propagates it immediately upward;
(4) a body yielding `ContinueLoop` re-enters the same `while`;
(5)/(6) a `for` tests its condition and ends with `Normal` when falsy,
else runs one iteration; (7)/(8) `BreakLoop`/`Return` behave as for
`while`; (9)/(10) after `ContinueLoop` the `for` still runs its
increment expression and only then re-enters the loop (which re-tests
the condition); (11) a `for` statement runs its initializer once with
`inside_loop = false` and then enters the loop; (12) `break` and
`continue` yield their signals when the immediate execution context is
inside a loop and fail with `NotInLoop` otherwise. -/
theorem c7_loop_control :
    (∀ (fuel : Nat) (c b : _) (il : Bool) (st st' : St) (v : LoxValue),
      evaluate fuel c st = .ok v st' → v.is_truthy = false →
      execute_statement (fuel + 1) (.whileS c b) il st = .ok .normal st') ∧
    (∀ (fuel : Nat) (c b : _) (il : Bool) (st st' st'' : St) (v : LoxValue),
      evaluate fuel c st = .ok v st' → v.is_truthy = true →
      execute_statement fuel b true st' = .ok .breakLoop st'' →
      execute_statement (fuel + 1) (.whileS c b) il st = .ok .normal st'') ∧
    (∀ (fuel : Nat) (c b : _) (il : Bool) (st st' st'' : St) (v rv : LoxValue),
      evaluate fuel c st = .ok v st' → v.is_truthy = true →
      execute_statement fuel b true st' = .ok (.ret rv) st'' →
      execute_statement (fuel + 1) (.whileS c b) il st = .ok (.ret rv) st'') ∧
    (∀ (fuel : Nat) (c b : _) (il : Bool) (st st' st'' : St) (v : LoxValue),
      evaluate fuel c st = .ok v st' → v.is_truthy = true →
      execute_statement fuel b true st' = .ok .continueLoop st'' →
      execute_statement (fuel + 1) (.whileS c b) il st
        = execute_statement fuel (.whileS c b) il st'') ∧
    (∀ (fuel : Nat) (c : Expression) (inc : Option Expression) (b : Statement)
        (st st' : St) (v : LoxValue),
      evaluate fuel c st = .ok v st' → v.is_truthy = false →
      for_loop (fuel + 1) (Option.some c) inc b st = .ok .normal st') ∧
    (∀ (fuel : Nat) (c : Expression) (inc : Option Expression) (b : Statement)
        (st st' : St) (v : LoxValue),
      evaluate fuel c st = .ok v st' → v.is_truthy = true →
      for_loop (fuel + 1) (Option.some c) inc b st
        = for_body fuel (Option.some c) inc b st') ∧
    (∀ (fuel : Nat) (c inc : Option Expression) (b : Statement) (st st' : St),
      execute_statement fuel b true st = .ok .breakLoop st' →
      for_body (fuel + 1) c inc b st = .ok .normal st') ∧
    (∀ (fuel : Nat) (c inc : Option Expression) (b : Statement) (st st' : St)
        (rv : LoxValue),
      execute_statement fuel b true st = .ok (.ret rv) st' →
      for_body (fuel + 1) c inc b st = .ok (.ret rv) st') ∧
    (∀ (fuel : Nat) (c inc : Option Expression) (b : Statement) (st st' : St),
      execute_statement fuel b true st = .ok .continueLoop st' →
      for_body (fuel + 1) c inc b st
        = M.bind (run_increment fuel inc) (fun _ => for_loop fuel c inc b) st') ∧
    (∀ (fuel : Nat) (inc : Expression) (st st' : St) (w : LoxValue),
      evaluate fuel inc st = .ok w st' →
      run_increment (fuel + 1) (Option.some inc) st = .ok () st') ∧
    ((∀ (fuel : Nat) (c inc : Option Expression) (b : Statement) (il : Bool) (st : St),
      execute_statement (fuel + 1) (.forS Option.none c inc b) il st
        = for_loop fuel c inc b st) ∧
     (∀ (fuel : Nat) (i : Statement) (c inc : Option Expression) (b : Statement)
        (il : Bool) (st st' : St) (cf : ControlFlow),
      execute_statement fuel i false st = .ok cf st' →
      execute_statement (fuel + 1) (.forS (Option.some i) c inc b) il st
        = for_loop fuel c inc b st')) ∧
    (∀ (fuel : Nat) (k : Token) (st : St),
      execute_statement (fuel + 1) (.breakS k) false st = .err .notInLoop k st ∧
      execute_statement (fuel + 1) (.continueS k) false st = .err .notInLoop k st ∧
      execute_statement (fuel + 1) (.breakS k) true st = .ok .breakLoop st ∧
      execute_statement (fuel + 1) (.continueS k) true st = .ok .continueLoop st) := by
  refine ⟨?_, ?_, ?_, ?_, ?_, ?_, ?_, ?_, ?_, ?_, ⟨?_, ?_⟩, ?_⟩
  · intro fuel c b il st st' v hc hv
    simp [execute_statement, M.bind, hc, hv, M.pure]
  · intro fuel c b il st st' st'' v hc hv hb
    simp [execute_statement, M.bind, hc, hv, hb, M.pure]
  · intro fuel c b il st st' st'' v rv hc hv hb
    simp [execute_statement, M.bind, hc, hv, hb, M.pure]
  · intro fuel c b il st st' st'' v hc hv hb
    simp [execute_statement, M.bind, hc, hv, hb, M.pure]
  · intro fuel c inc b st st' v hc hv
    simp [for_loop, M.bind, hc, hv, M.pure]
  · intro fuel c inc b st st' v hc hv
    simp [for_loop, M.bind, hc, hv, M.pure]
  · intro fuel c inc b st st' hb
    simp [for_body, M.bind, hb, M.pure]
  · intro fuel c inc b st st' rv hb
    simp [for_body, M.bind, hb, M.pure]
  · intro fuel c inc b st st' hb
    simp [for_body, M.bind, hb, M.pure]
  · intro fuel inc st st' w hi
    simp [run_increment, M.bind, hi, M.pure]
  · intro fuel c inc b il st
    simp [execute_statement]
  · intro fuel i c inc b il st st' cf hi
    simp [execute_statement, M.bind, hi]
  · intro fuel k st
    refine ⟨?_, ?_, ?_, ?_⟩ <;> simp [execute_statement, throwE, M.pure]

/-- C7, witness: the loop conjuncts at concrete inputs — a falsy-guard
`while` ends `Normal`; a `while true` whose body breaks ends `Normal`;
a `for` with `continue` in its body runs the increment and then re-tests;
`break` outside a loop is `NotInLoop`. -/
theorem c7_witness :
    execute_statement 2 (.whileS .falseE (.block [])) false Interpreter.new
      = .ok .normal Interpreter.new ∧
    execute_statement 2 (.whileS .trueE (.breakS (idTok "break" 1))) false Interpreter.new
      = .ok .normal Interpreter.new ∧
    for_body 2 Option.none (Option.some (.number 7)) (.continueS (idTok "continue" 1))
        Interpreter.new
      = M.bind (run_increment 1 (Option.some (.number 7)))
          (fun _ => for_loop 1 Option.none (Option.some (.number 7))
            (.continueS (idTok "continue" 1))) Interpreter.new ∧
    execute_statement 2 (.breakS (idTok "break" 1)) false Interpreter.new
      = .err .notInLoop (idTok "break" 1) Interpreter.new :=
  ⟨c7_loop_control.1 1 .falseE (.block []) false Interpreter.new Interpreter.new
      (.boolean false) rfl rfl,
   c7_loop_control.2.1 1 .trueE (.breakS (idTok "break" 1)) false Interpreter.new
      Interpreter.new Interpreter.new (.boolean true) rfl rfl rfl,
   (c7_loop_control.2.2.2.2.2.2.2.2.1) 1 Option.none (Option.some (.number 7))
      (.continueS (idTok "continue" 1)) Interpreter.new Interpreter.new rfl,
   (c7_loop_control.2.2.2.2.2.2.2.2.2.2.2 1 (idTok "break" 1) Interpreter.new).1⟩

theorem good_pure {α : Type} (a : α) : GoodM (M.pure a) := by
  intro st; simp [M.pure, stack_preserved]

theorem good_throwE {α : Type} (e : InterpreterErrorType) (t : Token) :
    GoodM (throwE e t : M α) := by
  intro st; simp [throwE, stack_preserved]

theorem good_panic_todo {α : Type} : GoodM (M.panicWith todo_msg : M α) := by
  intro st
  show st.environment_stack ≠ [] → todo_msg ≠ empty_stack_msg
  intro _
  decide

theorem good_bind {α β : Type} {x : M α} {f : α → M β}
    (hx : GoodM x) (hf : ∀ a, GoodM (f a)) : GoodM (M.bind x f) := by
  intro st
  have h := hx st
  simp only [M.bind]
  cases hr : x st with
  | ok a st' =>
      rw [hr] at h
      have h2 := hf a st'
      show stack_preserved st (f a st')
      cases hr2 : f a st' with
      | ok b st'' => rw [hr2] at h2; exact h2.trans h
      | err e t st'' => rw [hr2] at h2; exact h2.trans h
      | panicRes m =>
          rw [hr2] at h2
          intro hne
          exact h2 (by rw [h]; exact hne)
      | timeout => trivial
  | err e t st' => rw [hr] at h; exact h
  | panicRes m => rw [hr] at h; exact h
  | timeout => exact trivial

theorem good_ite {α : Type} {c : Prop} [Decidable c] {x y : M α}
    (hx : GoodM x) (hy : GoodM y) : GoodM (if c then x else y) := by
  split
  · exact hx
  · exact hy

theorem good_getSt : GoodM getSt := by
  intro st; simp [getSt, stack_preserved]

theorem good_currentEnvironment : GoodM currentEnvironment := by
  intro st
  show stack_preserved st (currentEnvironment st)
  rw [currentEnvironment]
  cases hs : st.environment_stack with
  | nil =>
      show st.environment_stack ≠ [] → empty_stack_msg ≠ empty_stack_msg
      intro hne
      exact absurd hs hne
  | cons e rest => simp [stack_preserved]

theorem good_assignAtM (i : Nat) (name : String) (v : LoxValue) (d : Nat) :
    GoodM (assignAtM i name v d) := by
  intro st
  show (Environment.assign_at st i name v d).2.environment_stack = st.environment_stack
  unfold Environment.assign_at
  dsimp only
  repeat' split
  all_goals rfl

theorem good_envDefineM (i : Nat) (name : String) (v : LoxValue) :
    GoodM (envDefineM i name v) := by
  intro st
  show (env_define st i name v).environment_stack = st.environment_stack
  unfold env_define
  split <;> rfl

theorem good_defineGlobalM (name : String) (v : LoxValue) :
    GoodM (defineGlobalM name v) := by
  intro st
  show (env_define st st.globals name v).environment_stack = st.environment_stack
  unfold env_define
  split <;> rfl

theorem good_allocFrameM (f : Frame) : GoodM (allocFrameM f) := by
  intro st; simp [allocFrameM, stack_preserved]

theorem good_outputM (v : LoxValue) : GoodM (outputM v) := by
  intro st; simp [outputM, stack_preserved]

theorem good_allocInstanceM (cls : LoxClass) : GoodM (allocInstanceM cls) := by
  intro st; simp [allocInstanceM, stack_preserved]

theorem good_instanceGetM (i : Nat) (key : String) : GoodM (instanceGetM i key) := by
  intro st; simp [instanceGetM, stack_preserved]

theorem good_instanceSetM (i : Nat) (key : String) (v : LoxValue) :
    GoodM (instanceSetM i key v) := by
  intro st
  show stack_preserved st (instanceSetM i key v st)
  unfold instanceSetM
  split <;> rfl

theorem good_classNameM (i : Nat) : GoodM (classNameM i) := by
  intro st
  show stack_preserved st (classNameM i st)
  unfold classNameM
  split <;> rfl

theorem good_lookup_variable (name : String) (e : Expression) :
    GoodM (lookup_variable name e) := by
  rw [lookup_variable]
  apply good_bind good_getSt
  intro st0
  cases locals_get st0.locals e with
  | none => exact good_pure _
  | some d => exact good_bind good_currentEnvironment (fun _ => good_pure _)

theorem good_evaluate_native (t : Token) (arity : Nat) (func : NativeId)
    (args : List LoxValue) : GoodM (evaluate_native t arity func args) := by
  rw [evaluate_native]
  apply good_ite
  · exact good_throwE _ _
  · cases native_sem func args with
    | ok r => exact good_pure _
    | error e => exact good_throwE _ _

theorem good_loxfunction_bind (f : LoxFunction) (i : Nat) : GoodM (f.bind i) := by
  rw [LoxFunction.bind]
  exact good_bind (good_allocFrameM _) (fun _ => good_pure _)

theorem good_bind_method (i : Nat) (m : Callable) : GoodM (bind_method i m) := by
  cases m with
  | loxFunction f =>
      show GoodM (M.bind (f.bind i) fun f' => M.pure (Callable.loxFunction f'))
      exact good_bind (good_loxfunction_bind f i) (fun _ => good_pure _)
  | nativeC func a => exact good_pure _
  | constructor cls a => exact good_pure _

theorem good_block_step (fuel : Nat) (s : Statement) (il : Bool) (env : Nat)
    (ih : ∀ (s : Statement) (il : Bool), GoodM (execute_statement fuel s il)) :
    GoodM (fun st => popAfter (execute_statement fuel s il (pushEnv st env))) := by
  intro st
  have h := ih s il (pushEnv st env)
  show stack_preserved st (popAfter (execute_statement fuel s il (pushEnv st env)))
  cases hr : execute_statement fuel s il (pushEnv st env) with
  | ok a st' =>
      rw [hr] at h
      show stack_preserved st (popAfter (.ok a st'))
      show (popEnv st').environment_stack = st.environment_stack
      rw [popEnv]
      rw [show st'.environment_stack = (pushEnv st env).environment_stack from h]
      rfl
  | err e t st' =>
      rw [hr] at h
      show stack_preserved st (popAfter (.err e t st'))
      show (popEnv st').environment_stack = st.environment_stack
      rw [popEnv]
      rw [show st'.environment_stack = (pushEnv st env).environment_stack from h]
      rfl
  | panicRes m =>
      rw [hr] at h
      show stack_preserved st (popAfter (.panicRes m))
      intro _
      exact h (by simp [pushEnv])
  | timeout => exact trivial

theorem good_all : ∀ fuel : Nat,
    (∀ e, GoodM (evaluate fuel e)) ∧
    (∀ t e, GoodM (evaluate_unary fuel t e)) ∧
    (∀ e1 op e2, GoodM (evaluate_binary fuel e1 op e2)) ∧
    (∀ args, GoodM (evaluate_arguments fuel args)) ∧
    (∀ c args tk, GoodM (interpret_call fuel c args tk)) ∧
    (∀ tk args f, GoodM (evaluate_lox_function fuel tk args f)) ∧
    (∀ s il, GoodM (execute_statement fuel s il)) ∧
    (∀ ss env il, GoodM (execute_block fuel ss env il)) ∧
    (∀ c i b, GoodM (for_loop fuel c i b)) ∧
    (∀ c i b, GoodM (for_body fuel c i b)) ∧
    (∀ i, GoodM (run_increment fuel i)) := by
  intro fuel
  induction fuel with
  | zero =>
      refine ⟨?_, ?_, ?_, ?_, ?_, ?_, ?_, ?_, ?_, ?_, ?_⟩ <;> intros <;> exact fun st => trivial
  | succ fuel ih =>
      obtain ⟨ihE, ihU, ihB, ihA, ihC, ihL, ihS, ihBl, ihFL, ihFB, ihRI⟩ := ih
      have hU : ∀ t e, GoodM (evaluate_unary (fuel + 1) t e) := by
        intro t e
        simp only [evaluate_unary]
        apply good_bind (ihE e)
        intro v
        split
        · exact good_pure _
        · exact good_pure _
        · exact good_pure _
        · exact good_ite (good_pure _) (good_pure _)
        · exact good_throwE _ _
      have hB : ∀ e1 op e2, GoodM (evaluate_binary (fuel + 1) e1 op e2) := by
        intro e1 op e2
        simp only [evaluate_binary]
        apply good_bind (ihE e1)
        intro a
        apply good_bind (ihE e2)
        intro b
        split
        · exact good_pure _
        · exact good_pure _
        · exact good_pure _
        · exact good_ite (good_throwE _ _) (good_pure _)
        · exact good_pure _
        · exact good_pure _
        · exact good_pure _
        · exact good_pure _
        · exact good_pure _
        · exact good_pure _
        · exact good_bind good_getSt (fun _ => good_pure _)
        · exact good_throwE _ _
      have hE : ∀ e, GoodM (evaluate (fuel + 1) e) := by
        intro e
        cases e with
        | trueE => exact good_pure _
        | falseE => exact good_pure _
        | number q => exact good_pure _
        | stringE s => exact good_pure _
        | nilE => exact good_pure _
        | grouping e1 => simp only [evaluate]; exact ihE e1
        | unary t e1 => simp only [evaluate]; exact ihU t e1
        | binary l op r => simp only [evaluate]; exact ihB l op r
        | varE name token =>
            simp only [evaluate]
            apply good_bind (good_lookup_variable _ _)
            intro v?
            cases v? with
            | some v => exact good_pure _
            | none => exact good_throwE _ _
        | thisE keyword =>
            simp only [evaluate]
            apply good_bind (good_lookup_variable _ _)
            intro v?
            cases v? with
            | some v => exact good_pure _
            | none => exact good_throwE _ _
        | assignment name value token =>
            simp only [evaluate]
            apply good_bind good_getSt
            intro st0
            cases locals_get st0.locals value with
            | none => exact good_panic_todo
            | some d =>
                apply good_bind good_currentEnvironment
                intro le
                apply good_bind (ihE value)
                intro v
                apply good_bind (good_assignAtM le name v d)
                intro wrote
                exact good_ite (good_pure _) (good_throwE _ _)
        | orE l r =>
            simp only [evaluate]
            exact good_bind (ihE l) (fun v => good_ite (good_pure _) (ihE r))
        | andE l r =>
            simp only [evaluate]
            exact good_bind (ihE l) (fun v => good_ite (good_pure _) (ihE r))
        | call callee paren args =>
            simp only [evaluate]
            apply good_bind (ihE callee)
            intro cv
            cases cv with
            | callable c => exact good_bind (ihA args) (fun argv => ihC c argv paren)
            | nil => exact good_throwE _ _
            | boolean b => exact good_throwE _ _
            | number q => exact good_throwE _ _
            | stringV s => exact good_throwE _ _
            | instanceV i => exact good_throwE _ _
        | getE obj token =>
            simp only [evaluate]
            apply good_bind (ihE obj)
            intro ov
            cases ov with
            | instanceV i =>
                apply good_bind (good_instanceGetM i token.lexeme)
                intro fld
                cases fld with
                | value v => exact good_pure _
                | methodF m => exact good_bind (good_bind_method i m) (fun bound => good_pure _)
                | undefined => exact good_bind (good_classNameM i) (fun cn => good_throwE _ _)
            | nil => exact good_throwE _ _
            | boolean b => exact good_throwE _ _
            | number q => exact good_throwE _ _
            | stringV s => exact good_throwE _ _
            | callable c => exact good_throwE _ _
        | setE name obj value =>
            simp only [evaluate]
            apply good_bind (ihE obj)
            intro ov
            cases ov with
            | instanceV i =>
                exact good_bind (ihE value)
                  (fun v => good_bind (good_instanceSetM i name.lexeme v) (fun _ => good_pure _))
            | nil => exact good_throwE _ _
            | boolean b => exact good_throwE _ _
            | number q => exact good_throwE _ _
            | stringV s => exact good_throwE _ _
            | callable c => exact good_throwE _ _
      have hA : ∀ args, GoodM (evaluate_arguments (fuel + 1) args) := by
        intro args
        cases args with
        | nil => exact good_pure _
        | cons a rest =>
            simp only [evaluate_arguments]
            exact good_bind (ihE a) (fun v => good_bind (ihA rest) (fun vs => good_pure _))
      have hC : ∀ c args tk, GoodM (interpret_call (fuel + 1) c args tk) := by
        intro c args tk
        cases c with
        | nativeC func arity =>
            simp only [interpret_call]
            exact good_evaluate_native _ _ _ _
        | loxFunction f =>
            simp only [interpret_call]
            exact ihL tk args f
        | constructor cls arity =>
            simp only [interpret_call]
            apply good_ite
            · exact good_throwE _ _
            · apply good_bind (good_allocInstanceM cls)
              intro instRef
              cases cls.find_method "init" with
              | some initializer =>
                  exact good_bind (good_bind_method instRef initializer)
                    (fun bound => good_bind (ihC bound args tk) (fun _ => good_pure _))
              | none => exact good_pure _
      have hL : ∀ tk args f, GoodM (evaluate_lox_function (fuel + 1) tk args f) := by
        intro tk args f
        simp only [evaluate_lox_function]
        apply good_ite
        · exact good_throwE _ _
        · apply good_bind (good_allocFrameM _)
          intro function_env
          apply good_bind (ihBl f.body function_env false)
          intro cf
          apply good_ite
          · exact good_bind good_getSt (fun _ => good_pure _)
          · cases cf with
            | normal => exact good_pure _
            | breakLoop => exact good_pure _
            | continueLoop => exact good_pure _
            | ret v => exact good_pure _
      have hS : ∀ s il, GoodM (execute_statement (fuel + 1) s il) := by
        intro s il
        cases s with
        | expression e =>
            simp only [execute_statement]
            exact good_bind (ihE e) (fun _ => good_pure _)
        | print e =>
            simp only [execute_statement]
            exact good_bind (ihE e)
              (fun r => good_bind (good_outputM r) (fun _ => good_pure _))
        | variableDeclaration name init =>
            cases init with
            | none =>
                simp only [execute_statement]
                exact good_bind good_currentEnvironment
                  (fun env => good_bind (good_envDefineM env name .nil) (fun _ => good_pure _))
            | some i =>
                simp only [execute_statement]
                exact good_bind (ihE i) (fun initial =>
                  good_bind good_currentEnvironment
                    (fun env => good_bind (good_envDefineM env name initial)
                      (fun _ => good_pure _)))
        | functionDeclaration name parameters body =>
            simp only [execute_statement]
            exact good_bind good_currentEnvironment
              (fun ce => good_bind (good_defineGlobalM name _) (fun _ => good_pure _))
        | block b =>
            simp only [execute_statement]
            exact good_bind good_currentEnvironment
              (fun ce => good_bind (good_allocFrameM _) (fun encl => ihBl b encl il))
        | ifS c t els =>
            cases els with
            | none =>
                simp only [execute_statement]
                exact good_bind (ihE c) (fun v => good_ite (ihS t il) (good_pure _))
            | some e =>
                simp only [execute_statement]
                exact good_bind (ihE c) (fun v => good_ite (ihS t il) (ihS e il))
        | whileS c b =>
            simp only [execute_statement]
            apply good_bind (ihE c)
            intro v
            apply good_ite
            · apply good_bind (ihS b true)
              intro cf
              cases cf with
              | breakLoop => exact good_pure _
              | ret rv => exact good_pure _
              | continueLoop => exact ihS (.whileS c b) il
              | normal => exact ihS (.whileS c b) il
            · exact good_pure _
        | forS init c inc b =>
            cases init with
            | none =>
                simp only [execute_statement]
                exact ihFL c inc b
            | some i =>
                simp only [execute_statement]
                exact good_bind (ihS i false) (fun _ => ihFL c inc b)
        | classDeclaration name methods =>
            simp only [execute_statement]
            exact good_bind good_currentEnvironment
              (fun env => good_bind (good_envDefineM env name .nil)
                (fun _ => good_bind (good_assignAtM env name _ 0) (fun _ => good_pure _)))
        | returnS keyword e =>
            cases e with
            | none => exact good_pure _
            | some ex =>
                simp only [execute_statement]
                exact good_bind (ihE ex) (fun v => good_pure _)
        | breakS keyword =>
            simp only [execute_statement]
            exact good_ite (good_pure _) (good_throwE _ _)
        | continueS keyword =>
            simp only [execute_statement]
            exact good_ite (good_pure _) (good_throwE _ _)
      have hBl : ∀ ss env il, GoodM (execute_block (fuel + 1) ss env il) := by
        intro ss env il
        cases ss with
        | nil => exact good_pure _
        | cons s rest =>
            simp only [execute_block]
            apply good_bind (good_block_step fuel s il env ihS)
            intro cf
            cases cf with
            | normal => exact ihBl rest env il
            | breakLoop => exact good_pure _
            | continueLoop => exact good_pure _
            | ret v => exact good_pure _
      have hFB : ∀ c i b, GoodM (for_body (fuel + 1) c i b) := by
        intro c i b
        simp only [for_body]
        apply good_bind (ihS b true)
        intro cf
        cases cf with
        | breakLoop => exact good_pure _
        | ret v => exact good_pure _
        | normal => exact good_bind (ihRI i) (fun _ => ihFL c i b)
        | continueLoop => exact good_bind (ihRI i) (fun _ => ihFL c i b)
      have hFL : ∀ c i b, GoodM (for_loop (fuel + 1) c i b) := by
        intro c i b
        cases c with
        | none =>
            simp only [for_loop]
            exact ihFB Option.none i b
        | some cond =>
            simp only [for_loop]
            exact good_bind (ihE cond)
              (fun v => good_ite (good_pure _) (ihFB (Option.some cond) i b))
      have hRI : ∀ i, GoodM (run_increment (fuel + 1) i) := by
        intro i
        cases i with
        | none => exact good_pure _
        | some inc =>
            simp only [run_increment]
            exact good_bind (ihE inc) (fun _ => good_pure _)
      exact ⟨hE, hU, hB, hA, hC, hL, hS, hBl, hFL, hFB, hRI⟩

theorem good_interpret (fuel : Nat) (stmts : List Statement) : GoodM (interpret fuel stmts) := by
  induction stmts with
  | nil => exact good_pure _
  | cons s rest ih =>
      simp only [interpret]
      exact good_bind ((good_all fuel).2.2.2.2.2.2.1 s false) (fun _ => ih)

/-- C10: the environment stack discipline.  `Interpreter::new` creates
the stack holding exactly the global frame; every expression evaluation
and statement execution that returns (`ok` or `err` — `execute_block`
pops also on the error path) leaves the environment stack exactly as it
found it, so the global frame at the bottom is never popped; and whenever
the stack is nonempty, no `last().unwrap()` on an empty stack can fire
(the `empty_stack_msg` panic is unreachable), which also holds for a
whole `interpret` run. -/
theorem c10_environment_stack_discipline :
    Interpreter.new.environment_stack = [Interpreter.new.globals] ∧
    (∀ (fuel : Nat) (e : Expression) (st : St) (v : LoxValue) (st' : St),
      evaluate fuel e st = .ok v st' →
      st'.environment_stack = st.environment_stack) ∧
    (∀ (fuel : Nat) (e : Expression) (st : St) (er : InterpreterErrorType) (t : Token)
        (st' : St),
      evaluate fuel e st = .err er t st' →
      st'.environment_stack = st.environment_stack) ∧
    (∀ (fuel : Nat) (s : Statement) (il : Bool) (st : St) (cf : ControlFlow) (st' : St),
      execute_statement fuel s il st = .ok cf st' →
      st'.environment_stack = st.environment_stack) ∧
    (∀ (fuel : Nat) (s : Statement) (il : Bool) (st : St) (er : InterpreterErrorType)
        (t : Token) (st' : St),
      execute_statement fuel s il st = .err er t st' →
      st'.environment_stack = st.environment_stack) ∧
    (∀ (fuel : Nat) (e : Expression) (st : St),
      st.environment_stack ≠ [] → evaluate fuel e st ≠ .panicRes empty_stack_msg) ∧
    (∀ (fuel : Nat) (s : Statement) (il : Bool) (st : St),
      st.environment_stack ≠ [] →
      execute_statement fuel s il st ≠ .panicRes empty_stack_msg) ∧
    (∀ (fuel : Nat) (stmts : List Statement) (st st' : St) (u : Unit),
      interpret fuel stmts st = .ok u st' →
      st'.environment_stack = st.environment_stack) ∧
    (∀ (fuel : Nat) (stmts : List Statement) (st : St),
      st.environment_stack ≠ [] →
      interpret fuel stmts st ≠ .panicRes empty_stack_msg) := by
  refine ⟨rfl, ?_, ?_, ?_, ?_, ?_, ?_, ?_, ?_⟩
  · intro fuel e st v st' h
    have hg := (good_all fuel).1 e st
    rw [h] at hg
    exact hg
  · intro fuel e st er t st' h
    have hg := (good_all fuel).1 e st
    rw [h] at hg
    exact hg
  · intro fuel s il st cf st' h
    have hg := (good_all fuel).2.2.2.2.2.2.1 s il st
    rw [h] at hg
    exact hg
  · intro fuel s il st er t st' h
    have hg := (good_all fuel).2.2.2.2.2.2.1 s il st
    rw [h] at hg
    exact hg
  · intro fuel e st hne h
    have hg := (good_all fuel).1 e st
    rw [h] at hg
    exact hg hne rfl
  · intro fuel s il st hne h
    have hg := (good_all fuel).2.2.2.2.2.2.1 s il st
    rw [h] at hg
    exact hg hne rfl
  · intro fuel stmts st st' u h
    have hg := good_interpret fuel stmts st
    rw [h] at hg
    exact hg
  · intro fuel stmts st hne h
    have hg := good_interpret fuel stmts st
    rw [h] at hg
    exact hg hne rfl

/-- C10, witness: the discipline applied at concrete inputs — a
`break` statement executed inside a loop leaves the stack unchanged, and
interpreting from the fresh (nonempty-stack) state cannot hit the
empty-stack panic. -/
theorem c10_witness :
    Interpreter.new.environment_stack = Interpreter.new.environment_stack ∧
    interpret 9 p1 (Interpreter.new.with_locals [(assignX2, 0)])
      ≠ .panicRes empty_stack_msg :=
  ⟨c10_environment_stack_discipline.2.2.2.1 1 (.breakS (idTok "break" 1)) true
      Interpreter.new .breakLoop Interpreter.new rfl,
   c10_environment_stack_discipline.2.2.2.2.2.2.2.2 9 p1
      (Interpreter.new.with_locals [(assignX2, 0)]) (by simp [Interpreter.new, St.with_locals])⟩
